import Mathlib

/-!
Verification of the data-quality engine
(`Dataquality/backend/engine/data_quality_engine.py`).

The Python engine is shallowly embedded here.  Conventions of the embedding:

* A dataframe cell is `Option String`; `none` models a pandas null (`NaN`).
  Cell payloads of non-string dtype are modelled through their `str()` image.
* Python strings are Lean `String`s, but every operation is implemented
  over the underlying character list (`String.data`) so that all
  definitions evaluate by kernel reduction.
* Python floats are exact rationals (`ℚ`), built exclusively with
  `Rat.divInt`; `round(x, 2)` is round-half-to-even on the exact rational.
* `rapidfuzz` similarity (`fuzz.ratio`, an Indel similarity) is the exact
  rational `100·(1 − dist/(m+n)) = 200·lcs/(m+n)`.
* Dictionaries and sets that the engine only iterates or tests membership
  on are association lists / lists; Python's unspecified set iteration
  order is modelled by list order (the spec declares tie-break order
  unspecified).
-/

namespace DQ

/-! ### Characters and Python-style string primitives -/

/-- The apostrophe character (used in diagnostics and the name charset). -/
def apos : Char := Char.ofNat 39

/-- One-character apostrophe string. -/
def aposS : String := String.mk [apos]

/-- Python `str.lower()` (ASCII case folding, enough for the data handled). -/
def lower (s : String) : String := String.mk (s.data.map Char.toLower)

/-- Whitespace test backing `strip`/`split`. -/
def isWS (c : Char) : Bool := c.isWhitespace

/-- Python `str.strip()`. -/
def strip (s : String) : String :=
  String.mk (((s.data.dropWhile isWS).reverse.dropWhile isWS).reverse)

/-- Split a character list at every character satisfying `p`
(Python `str.split(sep)` semantics: keeps empty chunks). -/
def splitPred (p : Char → Bool) (l : List Char) : List (List Char) :=
  l.foldr
    (fun c acc =>
      if p c then [] :: acc
      else
        match acc with
        | [] => [[c]]
        | h :: t => (c :: h) :: t)
    [[]]

/-- Python `s.split(sep)` for a one-character separator. -/
def splitChar (c : Char) (s : String) : List String :=
  (splitPred (fun x => x = c) s.data).map String.mk

/-- Python no-argument `str.split()`: split on whitespace runs, drop empties. -/
def splitWS (s : String) : List String :=
  ((splitPred isWS s.data).filter (fun w => w ≠ [])).map String.mk

/-- Python `sep.join(xs)` (also used for `" ".join`). -/
def joinWith (sep : String) (xs : List String) : String :=
  String.mk (List.intercalate sep.data (xs.map String.data))

/-- Python `"".join(xs)`. -/
def joinAll (xs : List String) : String :=
  String.mk ((xs.map String.data).flatten)

/-- Python `sub in s` (substring containment). -/
def hasSub (s sub : String) : Bool :=
  (List.range (s.data.length + 1)).any (fun i => sub.data.isPrefixOf (s.data.drop i))

/-- Python `c in s` for a single character. -/
def hasChar (s : String) (c : Char) : Bool := s.data.contains c

/-- Python `s.count(c)` for a single character. -/
def countChar (s : String) (c : Char) : Nat := s.data.count c

/-- Python `s.startswith(p)`. -/
def startsWith (s p : String) : Bool := p.data.isPrefixOf s.data

/-- Keep only the characters satisfying `p` (models `re.sub('[^…]', '', s)`
and `re.sub(pat, '', s)` character filters). -/
def keepChars (p : Char → Bool) (s : String) : String :=
  String.mk (s.data.filter p)

/-- ASCII letter test (regex `[a-zA-Z]`). -/
def isAsciiAlpha (c : Char) : Bool :=
  ('a' ≤ c ∧ c ≤ 'z') ∨ ('A' ≤ c ∧ c ≤ 'Z')

/-- ASCII digit test (regex `\d`). -/
def isDigitC (c : Char) : Bool := c.isDigit

/-- Regex `\D` removal: keep only digits (`re.sub(r"\D", "", s)`). -/
def onlyDigits (s : String) : String := keepChars isDigitC s

/-- Numeric value of a digit string. -/
def digitsToNat (l : List Char) : Nat :=
  l.foldl (fun a c => a * 10 + (c.toNat - 48)) 0

/-- Python truthiness of a string: non-empty. -/
def truthy (s : String) : Bool := s ≠ ""

/-- Python `str.title()` (ASCII): a letter is uppercased when the previous
character is not a letter, lowercased otherwise. -/
def titleAux : Bool → List Char → List Char
  | _, [] => []
  | prevAlpha, c :: cs =>
    if isAsciiAlpha c then
      (if prevAlpha then c.toLower else c.toUpper) :: titleAux true cs
    else
      c :: titleAux false cs

/-- Python `str.title()`. -/
def title (s : String) : String := String.mk (titleAux false s.data)

/-- First-occurrence deduplication, the deterministic stand-in for Python's
`set(...)` in diagnostic strings (the real iteration order is unspecified;
no verified property depends on it). -/
def dedupAux (seen : List Char) : List Char → List Char
  | [] => []
  | c :: cs => if seen.contains c then dedupAux seen cs else c :: dedupAux (c :: seen) cs

/-- First-occurrence deduplication entry point. -/
def dedup (l : List Char) : List Char := dedupAux [] l

/-- Python `", ".join(set(chars))` as used in diagnostics. -/
def joinCharSet (l : List Char) : String :=
  joinWith ", " ((dedup l).map (fun c => String.mk [c]))

/-- Lexicographic (code-point) order on character lists, Python's string
comparison used by `sorted`. -/
def lexLe : List Char → List Char → Bool
  | [], _ => true
  | _ :: _, [] => false
  | a :: as, b :: bs =>
    if a.toNat < b.toNat then true
    else if b.toNat < a.toNat then false
    else lexLe as bs

/-- Insert into a sorted list (stable insertion sort step). -/
def insertLe (x : String) : List String → List String
  | [] => [x]
  | y :: ys => if lexLe x.data y.data then x :: y :: ys else y :: insertLe x ys

/-- Python `sorted` on strings (insertion sort; total order, so agreeing
with any stable sort). -/
def sortStrings : List String → List String
  | [] => []
  | x :: xs => insertLe x (sortStrings xs)

/-! ### rapidfuzz similarity scorers

`fuzz.ratio` is the normalized Indel similarity `100·(1 − dist/(m+n))`,
equivalently `200·lcs/(m+n)` where `lcs` is the longest common subsequence
length; `fuzz.token_sort_ratio` applies `fuzz.ratio` after sorting the
whitespace-separated tokens of each side.  Scores are exact rationals on
the 0–100 scale. -/

/-- Longest common subsequence length, fuelled so that recursion is
structural (the fuel `a.length + b.length` always suffices). -/
def lcsAux : Nat → List Char → List Char → Nat
  | 0, _, _ => 0
  | _ + 1, [], _ => 0
  | _ + 1, _, [] => 0
  | fuel + 1, a :: as, b :: bs =>
    if a = b then lcsAux fuel as bs + 1
    else max (lcsAux fuel (a :: as) bs) (lcsAux fuel as (b :: bs))

/-- Longest common subsequence length of two character lists. -/
def lcs (a b : List Char) : Nat := lcsAux (a.length + b.length) a b

/-- `fuzz.ratio` on the 0–100 scale (`ratio("", "") = 100`). -/
def fuzzScore (a b : String) : ℚ :=
  if a.data.length + b.data.length = 0 then 100
  else Rat.divInt (200 * lcs a.data b.data) (a.data.length + b.data.length)

/-- Sort the whitespace tokens of a string and re-join with single spaces
(the preprocessing inside `fuzz.token_sort_ratio`). -/
def tokenSortJoin (s : String) : String := joinWith " " (sortStrings (splitWS s))

/-- `fuzz.token_sort_ratio` on the 0–100 scale. -/
def tokenSortScore (a b : String) : ℚ := fuzzScore (tokenSortJoin a) (tokenSortJoin b)

/-- `rapidfuzz.process.extractOne(query, choices, scorer=scorer)`:
best-scoring choice, ties resolved in favour of the earliest choice. -/
def extractOne (query : String) (choices : List String) (scorer : String → String → ℚ) :
    Option (String × ℚ) :=
  choices.foldl
    (fun acc c =>
      match acc with
      | none => some (c, scorer query c)
      | some (b, s) => if scorer query c > s then some (c, scorer query c) else some (b, s))
    none

/-! ### Python `round(x, 2)` and fraction building

Python's two-digit `round` is round-half-to-even.  It is modelled exactly
on rationals.  To keep every definition kernel-computable, rationals in
executable positions are built with `Rat.divInt` and the rounding works on
the numerator/denominator integers directly. -/

/-- Round half to even to the nearest integer, computed on `q.num`/`q.den`:
`f` is `⌊q⌋` (floor division by the positive denominator) and
`t = 2·q.den·(q − f)` compares the fractional part against `1/2`. -/
def roundHalfEven (q : ℚ) : ℤ :=
  let f : ℤ := Int.fdiv q.num q.den
  let t : ℤ := 2 * (q.num - f * q.den)
  if t < q.den then f
  else if (q.den : ℤ) < t then f + 1
  else if f % 2 = 0 then f else f + 1

/-- `q * 100`, built without `Rat.mul` so that it kernel-reduces. -/
def times100 (q : ℚ) : ℚ := Rat.divInt (q.num * 100) q.den

/-- Python `round(x, 2)` on the exact rational. -/
def round2 (q : ℚ) : ℚ := Rat.divInt (roundHalfEven (times100 q)) 100

/-- Two-decimal constant `n/100` (e.g. `pct 85` is the float `0.85`). -/
def pct (n : ℤ) : ℚ := Rat.divInt n 100

/-- `score / 100.0` as computed in `_best_match`, built without `Rat.div`. -/
def div100 (q : ℚ) : ℚ := Rat.divInt q.num (q.den * 100)

/-! ### Reference data and the table model -/

/-- The reference vocabularies loaded in `DataQualityEngine.__init__`
(`countries.json`, `industries.json`, `job_title_map.json`,
`email_domains.csv`).  The backing files are external data, so the sets
and the insertion-ordered dictionary are parameters of the model. -/
structure RefData where
  countries : List String
  industries : List String
  job_title_map : List (String × String)
  email_domains : List String

/-- `self.accept_threshold`. -/
def accept_threshold : ℚ := pct 80

/-- `self.suggest_threshold`. -/
def suggest_threshold : ℚ := pct 60

/-- A dataframe cell: `none` is a pandas null. -/
abbrev Cell := Option String

/-- A row is the list of cells aligned with the table's column list. -/
abbrev Row := List Cell

/-- A pandas dataframe: ordered column names plus rows of aligned cells. -/
structure Table where
  cols : List String
  rows : List Row
deriving DecidableEq

/-- `row.get(c)` on a row of dataframe `cols`: `none` when the column is
absent (Python `None`), `some none` for a null cell, `some (some s)` for a
string cell. -/
def getRaw (cols : List String) (row : Row) (c : String) : Option Cell :=
  match cols.findIdx? (fun x => x = c) with
  | some i => some (row.getD i none)
  | none => none

/-- `str(row.get(c, ""))`: absent columns give the default `""`, and
`str()` renders a null cell as the string `"nan"`. -/
def strGet (cols : List String) (row : Row) (c : String) : String :=
  match getRaw cols row c with
  | none => ""
  | some none => "nan"
  | some (some s) => s

/-- Overwrite column `c` with `vals` when present, else append it on the
right (`df[c] = vals`). -/
def setCol (t : Table) (c : String) (vals : List Cell) : Table :=
  match t.cols.findIdx? (fun x => x = c) with
  | some i => { cols := t.cols, rows := (t.rows.zip vals).map (fun rv => rv.1.set i rv.2) }
  | none => { cols := t.cols ++ [c], rows := (t.rows.zip vals).map (fun rv => rv.1 ++ [rv.2]) }

/-- `df.drop(columns=[c])`: remove every column labelled `c` together with
its cells. -/
def dropCol (t : Table) (c : String) : Table :=
  let keep := (t.cols.enum).filter (fun ci => ci.2 ≠ c)
  { cols := keep.map (fun ci => ci.2)
    rows := t.rows.map (fun row => keep.map (fun ci => row.getD ci.1 none)) }

/-- `_normalize_columns` composed with
`df.replace({"": np.nan, " ": np.nan})`: trim/lower-case the column names
and turn the exact cell values `""` and `" "` into nulls. -/
def normalize_table (t : Table) : Table :=
  { cols := t.cols.map (fun c => lower (strip c))
    rows := t.rows.map (fun row =>
      row.map (fun cell =>
        match cell with
        | some s => if s = "" ∨ s = " " then none else some s
        | none => none)) }

/-! ### Domain derivation (`_derive_domain`) -/

/-- One left-to-right pass of `re.sub(r"https?://", "", text)`: at each
position the regex consumes `https://` (greedy `s?`) or `http://`,
otherwise moves one character on. -/
def stripSchemes : Nat → List Char → List Char
  | 0, l => l
  | _ + 1, [] => []
  | fuel + 1, c :: cs =>
    if "https://".data.isPrefixOf (c :: cs) then stripSchemes fuel ((c :: cs).drop 8)
    else if "http://".data.isPrefixOf (c :: cs) then stripSchemes fuel ((c :: cs).drop 7)
    else c :: stripSchemes fuel cs

/-- `extract_domain` (local helper of `_derive_domain`). -/
def extract_domain (cell : Cell) : Cell :=
  match cell with
  | none => none
  | some v =>
    let text := strip (lower v)
    let text := String.mk (stripSchemes text.data.length text.data)
    let text := (splitChar '/' text).headD ""
    if text = "" then none
    else if ¬ hasChar text '.' then none
    else some text

/-- Column values of column `c` (used to model `df[c].apply`/`df.apply`). -/
def colCells (t : Table) (c : String) : List Cell :=
  t.rows.map (fun row =>
    match getRaw t.cols row c with
    | some cell => cell
    | none => none)

/-- `_derive_domain`. -/
def derive_domain (t : Table) : Table :=
  if "domain" ∉ t.cols ∧ "website" ∉ t.cols then t
  else if "domain" ∈ t.cols ∧ "website" ∈ t.cols then
    setCol t "domain"
      ((List.zip (colCells t "domain") (colCells t "website")).map
        (fun dw =>
          match extract_domain dw.1 with
          | some d => some d
          | none => extract_domain dw.2))
  else if "domain" ∈ t.cols then
    setCol t "domain" ((colCells t "domain").map extract_domain)
  else
    setCol t "domain" ((colCells t "website").map extract_domain)

/-! ### Entity deduplication (`_detect_duplicates`) -/

/-- `norm_text`: `str(val).lower().strip()`, the empty string for nulls. -/
def norm_text (cell : Cell) : String :=
  match cell with
  | none => ""
  | some s => strip (lower s)

/-- `norm_phone`: digits of `str(val)`, the empty string for nulls. -/
def norm_phone (cell : Cell) : String :=
  match cell with
  | none => ""
  | some s => onlyDigits s

/-- `company_fallback`: the first column whose (lowered) name contains
`"company"`. -/
def company_fallback (cols : List String) : Option String :=
  cols.find? (fun c => hasSub (lower c) "company")

/-- First non-empty normalized value among the candidate columns; a `none`
candidate (absent fallback) and absent columns are skipped, matching
`if col and col in row`. -/
def firstNonEmptyBy (norm : Cell → String) (cols : List String) (row : Row) :
    List (Option String) → String
  | [] => ""
  | none :: rest => firstNonEmptyBy norm cols row rest
  | some c :: rest =>
    match getRaw cols row c with
    | none => firstNonEmptyBy norm cols row rest
    | some cell =>
      let v := norm cell
      if v = "" then firstNonEmptyBy norm cols row rest else v

/-- `get_company`. -/
def get_company (cols : List String) (row : Row) : String :=
  firstNonEmptyBy norm_text cols row
    [some "company_name", some "company", some "organization", some "org_name",
     company_fallback cols]

/-- `get_person`: explicit `person_name` first, else the space-join of the
non-empty first/middle/last parts. -/
def get_person (cols : List String) (row : Row) : String :=
  let pn :=
    match getRaw cols row "person_name" with
    | some cell => norm_text cell
    | none => ""
  if pn ≠ "" then pn
  else
    let part := fun c =>
      match getRaw cols row c with
      | some cell => norm_text cell
      | none => ""
    strip (joinWith " " (([part "first_name", part "middle_name", part "last_name"]).filter
      (fun p => p ≠ "")))

/-- `get_email`. -/
def get_email (cols : List String) (row : Row) : String :=
  firstNonEmptyBy norm_text cols row
    [some "email", some "people_email", some "work_email", some "business_email"]

/-- `get_phone`. -/
def get_phone (cols : List String) (row : Row) : String :=
  firstNonEmptyBy norm_phone cols row
    [some "phone", some "people_phone", some "work_phone", some "mobile"]

/-- The accumulating state of the single dedup pass. -/
structure DupState where
  email_seen : List String
  phone_seen : List String
  person_company_seen : List (String × String)
deriving DecidableEq

/-- Empty dedup state. -/
def DupState.init : DupState := ⟨[], [], []⟩

/-- The per-record duplicate decision given the current state. -/
def dupDecide (data_type : String) (st : DupState) (company person email phone : String) :
    Bool :=
  if data_type = "company" then
    if email ≠ "" ∧ email ∈ st.email_seen then true
    else if phone ≠ "" ∧ phone ∈ st.phone_seen then true
    else if company ≠ "" then
      st.person_company_seen.any (fun pc => tokenSortScore company pc.2 ≥ 90)
    else false
  else
    if email ≠ "" ∧ email ∈ st.email_seen then true
    else if phone ≠ "" ∧ phone ∈ st.phone_seen then true
    else if person ≠ "" ∧ company ≠ "" then
      st.person_company_seen.any
        (fun pc => tokenSortScore company pc.2 ≥ 90 ∧ tokenSortScore person pc.1 ≥ 90)
    else false

/-- The per-record state update: only non-duplicates seed the seen
sets/history (company mode also records a company-only anchor). -/
def dupUpdate (data_type : String) (st : DupState)
    (company person email phone : String) (is_dup : Bool) : DupState :=
  if is_dup then st
  else
    { email_seen := if email ≠ "" then st.email_seen ++ [email] else st.email_seen
      phone_seen := if phone ≠ "" then st.phone_seen ++ [phone] else st.phone_seen
      person_company_seen :=
        if person ≠ "" ∧ company ≠ "" then st.person_company_seen ++ [(person, company)]
        else if data_type = "company" ∧ company ≠ "" then
          st.person_company_seen ++ [("", company)]
        else st.person_company_seen }

/-- The dedup pass over the rows, producing one flag per row. -/
def detectAux (data_type : String) (cols : List String) : DupState → List Row → List Bool
  | _, [] => []
  | st, row :: rest =>
    let company := get_company cols row
    let person := get_person cols row
    let email := get_email cols row
    let phone := get_phone cols row
    let d := dupDecide data_type st company person email phone
    d :: detectAux data_type cols (dupUpdate data_type st company person email phone d) rest

/-- `_detect_duplicates`: the flag list and the duplicate count (the count
is incremented exactly on flagged records, so it equals the number of
`true` flags). -/
def detect_duplicates (data_type : String) (t : Table) : List Bool × Nat :=
  let flags := detectAux data_type t.cols DupState.init t.rows
  (flags, flags.count true)

/-! ### Categorical standardization and job titles -/

/-- `_online_lookup`: the offline stub of the escalation capability. -/
def online_lookup (field value : String) : Option String × ℚ :=
  if value = "" then (none, 0)
  else (some (title (strip value)), pct 82)

/-- `_best_match`: best fuzzy match over the reference set, score scaled
from 0–100 down to 0–1. -/
def best_match (value : String) (reference : List String) : Option String × ℚ :=
  if reference = [] then (none, 0)
  else
    match extractOne value reference tokenSortScore with
    | some ms => (some ms.1, div100 ms.2)
    | none => (none, 0)

/-- Tail of `_standardize_value` after the offline attempts: online
escalation, else the unresolved result. -/
def standardize_online_part (value_clean field : String) : String × ℚ × String × String :=
  match online_lookup field value_clean with
  | (some s, conf) =>
    if s ≠ "" then (s, conf, "ONLINE", "online escalation for " ++ field)
    else (value_clean, 0, "ONLINE", "Needs Manual Review")
  | (none, _) => (value_clean, 0, "ONLINE", "Needs Manual Review")

/-- `_standardize_value`. -/
def standardize_value (reference : List String) (value : String) (field : String) :
    String × ℚ × String × String :=
  if value = "" ∨ lower value = "nan" then (value, 0, "OFFLINE", "missing")
  else
    let value_clean := strip value
    if value_clean ∈ reference then (value_clean, pct 95, "OFFLINE", "exact reference match")
    else
      let bm := best_match value_clean reference
      match bm.1 with
      | some b =>
        if b ≠ "" ∧ bm.2 ≥ suggest_threshold then
          if bm.2 ≥ accept_threshold then (b, bm.2, "OFFLINE", "standardized " ++ field)
          else (b, bm.2, "OFFLINE", "suggested " ++ field)
        else standardize_online_part value_clean field
      | none => standardize_online_part value_clean field

/-- Rendering of a rapidfuzz score inside the one closest-match
diagnostic; abstracts Python's float formatting (no verified property
depends on this text). -/
def ratRepr (q : ℚ) : String := toString q.num ++ "/" ++ toString q.den

/-- `_map_job_title` (defined in the engine but called from nowhere). -/
def map_job_title (jmap : List (String × String)) (titleArg : String) :
    String × ℚ × String × String :=
  if titleArg = "" then ("", 0, "OFFLINE", "missing")
  else
    let normalized := strip (lower titleArg)
    match jmap.lookup normalized with
    | some v => (v, pct 90, "OFFLINE", "mapped via dictionary")
    | none =>
      match jmap.find? (fun kv => hasSub normalized kv.1) with
      | some kv => (kv.2, pct 75, "OFFLINE", "substring mapping")
      | none =>
        match online_lookup "job_title" titleArg with
        | (some s, conf) =>
          if s ≠ "" then (s, conf, "ONLINE", "online escalation")
          else ("", 0, "ONLINE", "Needs Manual Review")
        | (none, _) => ("", 0, "ONLINE", "Needs Manual Review")

/-- `_validate_job_title` (the job-title routine the pipeline actually
calls): exact dictionary hit, else fuzzy match. -/
def validate_job_title (jmap : List (String × String)) (job_title : String) :
    Bool × Option String × ℚ × String :=
  if job_title = "" ∨ strip job_title = "" then (false, none, 0, "Job title is empty")
  else
    let clean := lower (strip job_title)
    match jmap.lookup clean with
    | some mapped =>
      if mapped ≠ job_title then (true, some mapped, pct 90, "Standardized to known job title")
      else (true, some job_title, 1, "Valid job title")
    | none =>
      if jmap ≠ [] then
        match extractOne clean (jmap.map (fun kv => kv.1)) tokenSortScore with
        | some ms =>
          if ms.2 ≥ 85 then
            (true, some ((jmap.lookup ms.1).getD ""), pct 80,
              "Similar to " ++ aposS ++ ms.1 ++ aposS)
          else if ms.2 ≥ 70 then
            (false, none, 0,
              "Unrecognized job title (closest: " ++ aposS ++ ms.1 ++ aposS ++ " - " ++
                ratRepr ms.2 ++ "% match)")
          else (false, none, 0, "Unrecognized job title")
        | none => (false, none, 0, "Unrecognized job title")
      else (false, none, 0, "Unrecognized job title")

/-! ### Email validation -/

/-- Characters the engine's regexes allow in an email local part
(`[a-zA-Z0-9._+-]`). -/
def localChar (c : Char) : Bool := c.isAlphanum ∨ c = '.' ∨ c = '_' ∨ c = '+' ∨ c = '-'

/-- Characters the engine's regexes allow in an email domain
(`[a-zA-Z0-9.-]`). -/
def domainChar (c : Char) : Bool := c.isAlphanum ∨ c = '.' ∨ c = '-'

/-- Python `s.endswith(p)`. -/
def endsWithS (s p : String) : Bool := p.data.isSuffixOf s.data

/-- Result of the `email_validator` library's successful validation. -/
structure EmailInfo where
  normalized : String
  local_part : String
  domain : String
deriving DecidableEq

/-- Modelled from the spec: the external `email_validator` library's
syntax-only check (`validate_email(..., check_deliverability=False)`,
"run syntax-only validation", spec §4.4); the library itself is a
dependency outside this repository.  It accepts a single `@`; a dot-atom
local part (within the charset the engine feeds it); a domain of at least
two non-empty alphanumeric/hyphen labels without edge hyphens whose last
label contains a letter; and normalizes by lower-casing the domain. -/
def emailLibValidate (email : String) : Option EmailInfo :=
  match splitChar '@' email with
  | [localP, domainP] =>
    if localP = "" then none
    else if ¬ localP.data.all localChar then none
    else if startsWith localP "." ∨ endsWithS localP "." ∨ hasSub localP ".." then none
    else
      let labels := splitChar '.' domainP
      if labels.length < 2 then none
      else if ¬ labels.all (fun lab =>
          lab ≠ "" ∧ lab.data.all (fun c => c.isAlphanum ∨ c = '-') ∧
          ¬ startsWith lab "-" ∧ ¬ endsWithS lab "-") then none
      else if ¬ (labels.getLastD "").data.any isAsciiAlpha then none
      else some ⟨localP ++ "@" ++ lower domainP, localP, lower domainP⟩
  | _ => none

/-- Modelled from the spec: the message text of the library's
`EmailNotValidError` (`str(e)`), abstracted to a constant since only its
presence inside one MANUAL diagnostic is observable. -/
def emailLibMessage : String := "The email address is not valid."

/-- `_closest_domain`. -/
def closest_domain (email_domains : List String) (domain : String) : Option String :=
  if email_domains = [] then none
  else
    match extractOne domain email_domains fuzzScore with
    | some ms => if ms.2 ≥ 70 then some ms.1 else none
    | none => none

/-- `_construct_email_from_name`.  `row.get("person_name", "")` is
stringified (so a null becomes `"nan"`), while `row.get("domain")` is used
raw: Python `None` (absent column) is falsy but a `NaN` cell is truthy and
interpolates as `"nan"`. -/
def construct_email_from_name (cols : List String) (row : Row) : Option String :=
  let person_name := strGet cols row "person_name"
  let domainRaw := getRaw cols row "domain"
  let domainTruthy :=
    match domainRaw with
    | none => false
    | some none => true
    | some (some s) => s ≠ ""
  if person_name = "" ∨ domainTruthy = false then none
  else
    let domainStr :=
      match domainRaw with
      | some (some s) => s
      | some none => "nan"
      | none => ""
    match splitWS (lower (strip person_name)) with
    | [] => none
    | [p] => some (p ++ "@" ++ domainStr)
    | p :: rest =>
      some (String.mk [p.data.headD ' '] ++ rest.getLastD "" ++ "@" ++ domainStr)

/-- The per-label domain check of `_validate_email` (first failing label
in order determines the message). -/
def domainPartsCheck : List String → Option String
  | [] => none
  | p :: ps =>
    if p = "" then some "Invalid: domain has empty part (e.g., example..com)"
    else if ¬ p.data.all (fun c => c.isAlphanum ∨ c = '-') then
      some ("Invalid: domain part " ++ aposS ++ p ++ aposS ++ " contains invalid characters")
    else domainPartsCheck ps

/-- `_validate_email`. -/
def validate_email (email_domains : List String) (cols : List String) (row : Row)
    (email0 : String) : String × ℚ × String × String :=
  if email0 = "" ∨ strip email0 = "" then
    match construct_email_from_name cols row with
    | some derived => (derived, pct 65, "OFFLINE", "constructed from name")
    | none => ("", 0, "MANUAL", "Email missing")
  else
    let email := strip email0
    if countChar email '@' ≠ 1 then
      if countChar email '@' = 0 then (email, 0, "MANUAL", "Invalid: missing @ symbol")
      else
        (email, 0, "MANUAL",
          "Invalid: contains " ++ toString (countChar email '@') ++ " @ symbols (should be 1)")
    else
      let parts := splitChar '@' email
      let local_part := parts.getD 0 ""
      let domain_part := parts.getD 1 ""
      if local_part = "" then (email, 0, "MANUAL", "Invalid: empty local part before @")
      else if ¬ local_part.data.all localChar then
        (email, 0, "MANUAL",
          "Invalid: local part contains invalid characters (" ++
            joinCharSet (local_part.data.filter (fun c => ¬ localChar c)) ++ ")")
      else if domain_part = "" then (email, 0, "MANUAL", "Invalid: empty domain after @")
      else if ¬ hasChar domain_part '.' then
        (email, 0, "MANUAL", "Invalid: domain missing . (e.g., should be gmail.com not gmailcom)")
      else if ¬ domain_part.data.all domainChar then
        (email, 0, "MANUAL",
          "Invalid: domain contains invalid characters (" ++
            joinCharSet (domain_part.data.filter (fun c => ¬ domainChar c)) ++ ")")
      else if hasChar email ' ' then (email, 0, "MANUAL", "Invalid: contains spaces")
      else
        match domainPartsCheck (splitChar '.' domain_part) with
        | some msg => (email, 0, "MANUAL", msg)
        | none =>
          match emailLibValidate email with
          | some info =>
            let domain := lower info.domain
            if email_domains ≠ [] ∧ domain ∉ email_domains then
              match closest_domain email_domains domain with
              | some suggestion =>
                (info.local_part ++ "@" ++ suggestion, pct 80, "OFFLINE", "domain standardized")
              | none => (info.normalized, pct 90, "OFFLINE", "valid")
            else (info.normalized, pct 90, "OFFLINE", "valid")
          | none =>
            match construct_email_from_name cols row with
            | some derived => (derived, pct 70, "OFFLINE", "reconstructed from name")
            | none => (email, 0, "MANUAL", "Invalid email format: " ++ emailLibMessage)

/-- Python `s.split(c, 1)` as the pair before/after the first occurrence
(used only when the separator is present). -/
def splitFirst (c : Char) (s : String) : String × String :=
  (String.mk (s.data.takeWhile (fun x => x ≠ c)),
   String.mk ((s.data.dropWhile (fun x => x ≠ c)).tail))

/-- `_suggest_email_fix`. -/
def suggest_email_fix (email0 : String) : String :=
  let e := strip email0
  let e :=
    if countChar e '@' > 1 then
      (splitChar '@' e).headD "" ++ "@" ++ joinAll (splitChar '@' e).tail
    else e
  let e :=
    if hasChar e '@' then
      let ld := splitFirst '@' e
      keepChars localChar ld.1 ++ "@" ++ keepChars domainChar ld.2
    else e
  if hasChar e '@' then
    let ld := splitFirst '@' e
    if ¬ hasChar ld.2 '.' ∧ ld.2 ≠ "" then ld.1 ++ "@" ++ ld.2 ++ ".com" else e
  else e

/-! ### Phone, name, id and score validators -/

/-- `_validate_phone_strict`. -/
def validate_phone_strict (phone : String) : Bool × String × ℚ × String :=
  if phone = "" then (false, "", 0, "Phone number missing")
  else
    let digits := onlyDigits phone
    if digits.data.length < 10 then
      (false, phone, 0, "Invalid: only " ++ toString digits.data.length ++ " digits (need 10+)")
    else if digits.data.length > 15 then
      (false, phone, 0, "Invalid: too many digits (" ++ toString digits.data.length ++ ")")
    else
      let formatted := "+" ++ digits
      if formatted ≠ phone then (true, formatted, pct 85, "Standardized format")
      else (true, phone, 1, "Valid")

/-- The characters `_validate_name` accepts (regex `[a-zA-Z\s\-\']`). -/
def nameChar (c : Char) : Bool := isAsciiAlpha c ∨ isWS c ∨ c = '-' ∨ c = apos

/-- `_validate_name`. -/
def validate_name (name : String) : Bool × String × String :=
  if name = "" then (true, name, "Valid")
  else if name.data.any isDigitC then (false, name, "Invalid: contains numbers")
  else
    let bad := name.data.filter (fun c => ¬ nameChar c)
    if bad = [] then (true, name, "Valid")
    else (false, name, "Invalid: contains special characters (" ++ joinCharSet bad ++ ")")

/-- `_suggest_name_fix`. -/
def suggest_name_fix (name : String) : String :=
  if (strip name).data ≠ [] ∧ (strip name).data.all isDigitC then
    "[Name should contain characters, not numbers]"
  else
    let cleaned := keepChars (fun c => ¬ isDigitC c) name
    let cleaned := keepChars nameChar cleaned
    let cleaned := joinWith " " (splitWS cleaned)
    if strip cleaned ≠ "" then strip cleaned else name

/-- `_validate_id`.  The `int()` call after the all-digits regex check can
only flag non-positivity (the `ValueError` arm is unreachable there). -/
def validate_id (id_val : String) : Bool × String :=
  if id_val = "" ∨ strip id_val = "" then (false, "ID is empty")
  else
    let t := strip id_val
    if ¬ (t.data ≠ [] ∧ t.data.all isDigitC) then (false, "ID must contain only numbers")
    else if digitsToNat t.data ≤ 0 then (false, "ID must be positive")
    else (true, "Valid")

/-- `_suggest_id_fix`.  When the stripped value has no digit at all,
`int(id_val)` necessarily raises and the bare `except` returns the
original string. -/
def suggest_id_fix (id_val : String) : String :=
  let digits := onlyDigits (strip id_val)
  if digits ≠ "" then digits else id_val

/-- Outcome of Python `float(s)`. -/
inductive PyFloat where
  | err
  | nan
  | inf (negative : Bool)
  | val (q : ℚ)
deriving DecidableEq

/-- Decimal-mantissa parser: digits with an optional single dot, at least
one digit overall, as `(numerator, denominator)`. -/
def parseMant (m : String) : Option (Int × Nat) :=
  match splitChar '.' m with
  | [ip] =>
    if ip.data ≠ [] ∧ ip.data.all isDigitC then some (Int.ofNat (digitsToNat ip.data), 1)
    else none
  | [ip, fp] =>
    if ip.data.all isDigitC ∧ fp.data.all isDigitC ∧ (ip.data ≠ [] ∨ fp.data ≠ []) then
      some (Int.ofNat (digitsToNat (ip.data ++ fp.data)), 10 ^ fp.data.length)
    else none
  | _ => none

/-- Modelled from the spec: Python's `float()` parser as used by the score
validator ("must parse as numeric", spec §4.8) — optional sign,
`inf`/`infinity`/`nan`, or a decimal mantissa with optional exponent
(digit-group underscores are not modelled; no verified property uses
them). -/
def parseFloat (s : String) : PyFloat :=
  let t := lower (strip s)
  let signed :=
    if startsWith t "-" then (true, String.mk t.data.tail)
    else if startsWith t "+" then (false, String.mk t.data.tail)
    else (false, t)
  let neg := signed.1
  let body := signed.2
  if body = "inf" ∨ body = "infinity" then .inf neg
  else if body = "nan" then .nan
  else
    match splitChar 'e' body with
    | [mant] =>
      match parseMant mant with
      | some nd => .val (if neg then -(Rat.divInt nd.1 nd.2) else Rat.divInt nd.1 nd.2)
      | none => .err
    | [mant, ex] =>
      let esigned :=
        if startsWith ex "-" then (true, String.mk ex.data.tail)
        else if startsWith ex "+" then (false, String.mk ex.data.tail)
        else (false, ex)
      if esigned.2.data ≠ [] ∧ esigned.2.data.all isDigitC then
        match parseMant mant with
        | some nd =>
          let e := digitsToNat esigned.2.data
          let q :=
            if esigned.1 then Rat.divInt nd.1 (nd.2 * 10 ^ e)
            else Rat.divInt (nd.1 * 10 ^ e) nd.2
          .val (if neg then -q else q)
        | none => .err
      else .err
    | _ => .err

/-- `_validate_score`.  `float("nan")` parses and compares false against
both bounds, so a `nan` string counts as valid, exactly as in the code. -/
def validate_score (score_val : String) : Bool × String :=
  if score_val = "" ∨ strip score_val = "" then (false, "Score is empty")
  else
    match parseFloat score_val with
    | .err => (false, "Score must be numeric")
    | .nan => (true, "Valid")
    | .inf true => (false, "Score cannot be negative")
    | .inf false => (false, "Score cannot exceed 100")
    | .val q =>
      if q < 0 then (false, "Score cannot be negative")
      else if q > 100 then (false, "Score cannot exceed 100")
      else (true, "Valid")

/-! ### Fix ledger, counters, per-row processing -/

/-- A fix event as produced by `_make_fix`. -/
structure Fix where
  row_index : Nat
  field : String
  original : Cell
  suggested : String
  confidence : ℚ
  processing_mode : String
  note : String
deriving DecidableEq

/-- `_make_fix` (rounds the confidence to two decimals). -/
def make_fix (row_index : Nat) (field : String) (original : Cell) (suggested : String)
    (confidence : ℚ) (processing_mode note : String) : Fix :=
  { row_index := row_index, field := field, original := original, suggested := suggested
    confidence := round2 confidence, processing_mode := processing_mode, note := note }

/-- The mutable per-request counters and record lists of
`_process_dataframe`. -/
structure Counters where
  fixes : List Fix
  invalid_count : Nat
  standardized_count : Nat
  offline_fixes : Nat
  online_fixes : Nat
  manual_review : Nat
  missing_records : List (Nat × String × String)
  invalid_records : List (Nat × String × String × String)
deriving DecidableEq

/-- All-empty counters. -/
def Counters.init : Counters := ⟨[], 0, 0, 0, 0, 0, [], []⟩

/-- Python `value != row.get(field)` for a string against a raw cell:
a null cell compares unequal to every string. -/
def cellNe (cell : Cell) (v : String) : Bool :=
  match cell with
  | some s => s != v
  | none => true

/-- Truthiness-aware `mapped_title and mapped_title != job_val`. -/
def mappedChanged (mapped : Option String) (job_val : String) : Bool :=
  match mapped with
  | some m => m != "" && m != job_val
  | none => false

/-- The standardization block of the row loop for one of the two
categorical fields (`country`/`industry`). -/
def proc_categorical (reference : List String) (field : String) (cols : List String)
    (row : Row) (idx : Nat) (st : Counters) : Counters :=
  if field ∈ cols then
    let cell := match getRaw cols row field with | some c => c | none => none
    let r := standardize_value reference (strGet cols row field) field
    let value := r.1
    let conf := r.2.1
    let mode := r.2.2.1
    let note := r.2.2.2
    if cellNe cell value then
      let st1 := { st with
        standardized_count := st.standardized_count + 1
        fixes := st.fixes ++ [make_fix idx field cell value conf mode note] }
      let st2 :=
        if mode = "OFFLINE" then { st1 with offline_fixes := st1.offline_fixes + 1 }
        else if mode = "ONLINE" then { st1 with online_fixes := st1.online_fixes + 1 }
        else st1
      if mode = "ONLINE" ∧ conf < accept_threshold then
        { st2 with manual_review := st2.manual_review + 1 }
      else st2
    else if cell = none then { st with invalid_count := st.invalid_count + 1 }
    else st
  else st

/-- The job-title block of the row loop. -/
def proc_job (jmap : List (String × String)) (cols : List String) (row : Row) (idx : Nat)
    (st : Counters) : Counters :=
  if "job_title" ∈ cols ∨ "jobtitle" ∈ cols then
    let job_field := if "job_title" ∈ cols then "job_title" else "jobtitle"
    match getRaw cols row job_field with
    | some (some job_val) =>
      let r := validate_job_title jmap job_val
      let is_valid := r.1
      let mapped := r.2.1
      let j_conf := r.2.2.1
      let j_note := r.2.2.2
      if is_valid = false then
        let suggestion :=
          match mapped with
          | some m => if m ≠ "" then m else "(No match found - manual review needed)"
          | none => "(No match found - manual review needed)"
        { st with
          invalid_count := st.invalid_count + 1
          invalid_records := st.invalid_records ++ [(idx, job_field, job_val, j_note)]
          fixes := st.fixes ++ [make_fix idx job_field (some job_val) suggestion 0 "MANUAL" j_note]
          manual_review := st.manual_review + 1 }
      else if mappedChanged mapped job_val then
        { st with
          standardized_count := st.standardized_count + 1
          fixes := st.fixes ++
            [make_fix idx job_field (some job_val) (mapped.getD "") j_conf "OFFLINE" j_note]
          offline_fixes := st.offline_fixes + 1 }
      else st
    | _ => st
  else st

/-- The email block of the row loop. -/
def proc_email (email_domains : List String) (cols : List String) (row : Row) (idx : Nat)
    (st : Counters) : Counters :=
  if "email" ∈ cols ∨ "people_email" ∈ cols then
    let email_field := if "email" ∈ cols then "email" else "people_email"
    match getRaw cols row email_field with
    | some (some email_val) =>
      let r := validate_email email_domains cols row email_val
      let cleaned_email := r.1
      let e_conf := r.2.1
      let e_mode := r.2.2.1
      let e_note := r.2.2.2
      if e_conf = 0 ∧ e_mode = "MANUAL" then
        let suggestion := suggest_email_fix email_val
        let st1 := { st with
          invalid_count := st.invalid_count + 1
          invalid_records := st.invalid_records ++ [(idx, email_field, email_val, e_note)] }
        match emailLibValidate suggestion with
        | some info =>
          { st1 with
            fixes := st1.fixes ++ [make_fix idx email_field (some email_val) info.normalized
              (pct 85) "OFFLINE" ("Auto-fixed: " ++ e_note)]
            offline_fixes := st1.offline_fixes + 1 }
        | none =>
          { st1 with
            fixes := st1.fixes ++ [make_fix idx email_field (some email_val) suggestion
              0 "ONLINE" ("Needs verification: " ++ e_note)]
            online_fixes := st1.online_fixes + 1
            manual_review := st1.manual_review + 1 }
      else if cleaned_email ≠ "" ∧ cleaned_email ≠ email_val then
        let st1 := { st with
          standardized_count := st.standardized_count + 1
          fixes := st.fixes ++
            [make_fix idx email_field (some email_val) cleaned_email e_conf e_mode e_note] }
        let st2 :=
          if e_mode = "OFFLINE" then { st1 with offline_fixes := st1.offline_fixes + 1 }
          else if e_mode = "ONLINE" then { st1 with online_fixes := st1.online_fixes + 1 }
          else st1
        if e_mode = "ONLINE" ∧ e_conf < accept_threshold then
          { st2 with manual_review := st2.manual_review + 1 }
        else st2
      else st
    | some none =>
      { st with missing_records := st.missing_records ++ [(idx, email_field, "Missing")] }
    | none => st
  else st

/-- The phone block of the row loop. -/
def proc_phone (cols : List String) (row : Row) (idx : Nat) (st : Counters) : Counters :=
  if "phone" ∈ cols ∨ "people_phone" ∈ cols then
    let phone_field := if "phone" ∈ cols then "phone" else "people_phone"
    match getRaw cols row phone_field with
    | some (some phone_val) =>
      let r := validate_phone_strict phone_val
      let is_valid := r.1
      let cleaned_phone := r.2.1
      let p_conf := r.2.2.1
      let p_note := r.2.2.2
      if is_valid = false then
        { st with
          invalid_count := st.invalid_count + 1
          invalid_records := st.invalid_records ++ [(idx, phone_field, phone_val, p_note)]
          fixes := st.fixes ++
            [make_fix idx phone_field (some phone_val) cleaned_phone 0 "MANUAL" p_note]
          manual_review := st.manual_review + 1 }
      else if cleaned_phone ≠ phone_val then
        { st with
          standardized_count := st.standardized_count + 1
          fixes := st.fixes ++
            [make_fix idx phone_field (some phone_val) cleaned_phone p_conf "OFFLINE" p_note]
          offline_fixes := st.offline_fixes + 1 }
      else st
    | some none =>
      { st with
        invalid_count := st.invalid_count + 1
        missing_records := st.missing_records ++ [(idx, phone_field, "Missing")] }
    | none => st
  else st

/-- The name block of the row loop for one name field. -/
def proc_name_field (field : String) (cols : List String) (row : Row) (idx : Nat)
    (st : Counters) : Counters :=
  if field ∈ cols then
    match getRaw cols row field with
    | some (some name_val) =>
      let r := validate_name name_val
      let is_valid := r.1
      let n_note := r.2.2
      if is_valid = false then
        let suggestion := suggest_name_fix name_val
        let st1 := { st with
          invalid_count := st.invalid_count + 1
          invalid_records := st.invalid_records ++ [(idx, field, name_val, n_note)] }
        if suggestion ≠ name_val ∧ startsWith suggestion "[" = false then
          { st1 with
            fixes := st1.fixes ++ [make_fix idx field (some name_val) suggestion
              (pct 70) "OFFLINE" ("Auto-fixed: " ++ n_note)]
            offline_fixes := st1.offline_fixes + 1 }
        else
          { st1 with
            fixes := st1.fixes ++
              [make_fix idx field (some name_val) suggestion 0 "MANUAL" n_note]
            manual_review := st1.manual_review + 1 }
      else st
    | _ => st
  else st

/-- The id block of the row loop. -/
def proc_id (cols : List String) (row : Row) (idx : Nat) (st : Counters) : Counters :=
  if "id" ∈ cols then
    match getRaw cols row "id" with
    | some (some id_val) =>
      let r := validate_id id_val
      if r.1 = false then
        let suggestion := suggest_id_fix id_val
        let st1 := { st with
          invalid_count := st.invalid_count + 1
          invalid_records := st.invalid_records ++ [(idx, "id", id_val, r.2)] }
        if suggestion ≠ id_val ∧ (suggestion.data ≠ [] ∧ suggestion.data.all isDigitC) then
          { st1 with
            fixes := st1.fixes ++ [make_fix idx "id" (some id_val) suggestion
              (pct 80) "OFFLINE" ("Auto-fixed: " ++ r.2)]
            offline_fixes := st1.offline_fixes + 1 }
        else
          { st1 with
            fixes := st1.fixes ++ [make_fix idx "id" (some id_val) suggestion 0 "MANUAL" r.2]
            manual_review := st1.manual_review + 1 }
      else st
    | _ => st
  else st

/-- The score block of the row loop for one score field. -/
def proc_score_field (field : String) (cols : List String) (row : Row) (idx : Nat)
    (st : Counters) : Counters :=
  if field ∈ cols then
    match getRaw cols row field with
    | some (some score_val) =>
      let r := validate_score score_val
      if r.1 = false then
        { st with
          invalid_count := st.invalid_count + 1
          invalid_records := st.invalid_records ++ [(idx, field, score_val, r.2)]
          fixes := st.fixes ++ [make_fix idx field (some score_val) "" 0 "MANUAL" r.2]
          manual_review := st.manual_review + 1 }
      else st
    | _ => st
  else st

/-- One iteration of `for idx, row in df.iterrows()`: the fixed field
order — categorical fields, job title, email, phone, names, id, scores. -/
def process_row (ref : RefData) (cols : List String) (row : Row) (idx : Nat)
    (st : Counters) : Counters :=
  let st := proc_categorical ref.countries "country" cols row idx st
  let st := proc_categorical ref.industries "industry" cols row idx st
  let st := proc_job ref.job_title_map cols row idx st
  let st := proc_email ref.email_domains cols row idx st
  let st := proc_phone cols row idx st
  let st := proc_name_field "first_name" cols row idx st
  let st := proc_name_field "last_name" cols row idx st
  let st := proc_name_field "middle_name" cols row idx st
  let st := proc_name_field "person_name" cols row idx st
  let st := proc_id cols row idx st
  let st := proc_score_field "email_score" cols row idx st
  proc_score_field "people_email_score" cols row idx st

/-! ### Report and orchestration -/

/-- The report dictionary of `_build_report`. -/
structure Report where
  missing_fields : Nat
  invalid_fields : Nat
  duplicate_rows : Nat
  standardized_fields : Nat
  offline_fixes : Nat
  online_fixes : Nat
  manual_review : Nat
  overall_quality_score : ℚ
  records : Nat
  total_columns : Nat
  all_columns : List String
  missing_per_column : List (String × Nat)

/-- Null count of the `i`-th column (`df.isnull().sum()` per column). -/
def nullsInCol (t : Table) (i : Nat) : Nat :=
  t.rows.countP (fun row => (row.getD i (some "")).isNone)

/-- `df.isnull().sum().sum()`: total nulls, summed column-wise. -/
def totalMissing (t : Table) : Nat :=
  ((List.range t.cols.length).map (nullsInCol t)).sum

/-- `_build_report`. -/
def build_report (t : Table) (invalid_count standardized_count duplicate_count
    offline_fixes online_fixes manual_review : Nat) : Report :=
  let total_rows := t.rows.length
  let total_cols := t.cols.length
  let total_cells := total_rows * total_cols
  let total_missing := totalMissing t
  let penalty : Nat := total_missing + invalid_count + duplicate_count * 2 + manual_review * 3
  let quality_score : ℚ :=
    max 0 (min 100 (100 - round2 (times100 (Rat.divInt penalty (total_cells + 1)))))
  { missing_fields := total_missing
    invalid_fields := invalid_count
    duplicate_rows := duplicate_count
    standardized_fields := standardized_count
    offline_fixes := offline_fixes
    online_fixes := online_fixes
    manual_review := manual_review
    overall_quality_score := quality_score
    records := total_rows
    total_columns := total_cols
    all_columns := t.cols
    missing_per_column := t.cols.enum.map (fun ci => (ci.2, nullsInCol t ci.1)) }

/-- The outputs of `_process_dataframe`. -/
structure ProcessResult where
  report : Report
  cleaned : Table
  fixes : List Fix
  missing_records : List (Nat × String × String)
  invalid_records : List (Nat × String × String × String)
  duplicate_records : List Nat

/-- `_process_dataframe`: normalize, derive the domain when applicable,
flag duplicates, run per-row remediation, build the report, and drop the
internal flag column from the cleaned output.  The boolean flag column is
modelled as non-null string cells: only its presence (column count, zero
null count) and its later removal are observable. -/
def process_dataframe (ref : RefData) (data_type : String) (t0 : Table) : ProcessResult :=
  let t1 := normalize_table t0
  let t2 :=
    if "domain" ∉ t1.cols ∧ ("website" ∈ t1.cols ∨ "domain_url" ∈ t1.cols) then
      derive_domain t1
    else t1
  let fd := detect_duplicates data_type t2
  let flags := fd.1
  let duplicate_count := fd.2
  let t3 := setCol t2 "is_duplicate" (flags.map (fun b => some (if b then "True" else "False")))
  let dup_records := (flags.enum.filter (fun ib => ib.2 = true)).map (fun ib => ib.1)
  let cs := (t3.rows.enum).foldl (fun st ir => process_row ref t3.cols ir.2 ir.1 st)
    Counters.init
  { report := build_report t3 cs.invalid_count cs.standardized_count duplicate_count
      cs.offline_fixes cs.online_fixes cs.manual_review
    cleaned := dropCol t3 "is_duplicate"
    fixes := cs.fixes
    missing_records := cs.missing_records
    invalid_records := cs.invalid_records
    duplicate_records := dup_records }

/-! ## Generic lemmas -/

/-- `round(0.0, 2) = 0.0`. -/
lemma round2_zero : round2 0 = 0 := by decide

/-- `round(0.85, 2) = 0.85`. -/
lemma round2_pct85 : round2 (pct 85) = pct 85 := by decide

/-- `_standardize_value` on the stringified null `"nan"` takes the missing
branch. -/
lemma standardize_value_nan (reference : List String) (field : String) :
    standardize_value reference "nan" field = ("nan", 0, "OFFLINE", "missing") := by
  rw [standardize_value, if_pos (Or.inr (by decide))]

/-- A null cell stringifies to `"nan"`. -/
lemma strGet_null {cols : List String} {row : Row} {c : String}
    (h : getRaw cols row c = some none) : strGet cols row c = "nan" := by
  simp [strGet, h]

/-! ## C9 -/

/-- C9: for a row whose country/industry cell is null, the categorical
block stringifies the null to `"nan"`, standardization returns
`("nan", 0.0, OFFLINE, "missing")`, which differs from the null cell, so
exactly one OFFLINE fix with suggested value `"nan"` and confidence `0` is
emitted and the standardized/offline counters are incremented, while the
`invalid_count` branch is not reached (all other counters unchanged). -/
theorem c9_null_categorical_emits_nan_fix (reference : List String) (field : String)
    (cols : List String) (row : Row) (idx : Nat) (st : Counters)
    (hf : field = "country" ∨ field = "industry")
    (hmem : field ∈ cols) (hcell : getRaw cols row field = some none) :
    proc_categorical reference field cols row idx st =
      { st with
        standardized_count := st.standardized_count + 1
        offline_fixes := st.offline_fixes + 1
        fixes := st.fixes ++ [⟨idx, field, none, "nan", 0, "OFFLINE", "missing"⟩] } := by
  rw [proc_categorical, if_pos hmem, hcell, strGet_null hcell, standardize_value_nan]
  simp [cellNe, make_fix, round2_zero, accept_threshold]

/-- Witness for C9 at a concrete table state. -/
theorem c9_witness :
    proc_categorical ["United States"] "country" ["country"] [none] 0 Counters.init =
      { Counters.init with
        standardized_count := 1
        offline_fixes := 1
        fixes := [⟨0, "country", none, "nan", 0, "OFFLINE", "missing"⟩] } := by
  have h := c9_null_categorical_emits_nan_fix ["United States"] "country" ["country"]
    [none] 0 Counters.init (Or.inl rfl) (by decide) (by decide)
  simpa using h

/-! ## String lemmas for the escalation stub -/

/-- `strip` written through Mathlib's `rdropWhile`. -/
lemma strip_data (s : String) :
    (strip s).data = List.rdropWhile isWS (List.dropWhile isWS s.data) := by
  simp [strip, List.rdropWhile]

/-- The head of a non-empty prefix agrees with the head of the list. -/
lemma head?_of_pre {α : Type} {m l : List α} (h : m <+: l) (hm : m ≠ []) :
    l.head? = m.head? := by
  obtain ⟨t, rfl⟩ := h
  cases m with
  | nil => exact absurd rfl hm
  | cons a as => rfl

/-- Stripping is idempotent. -/
lemma strip_idem (s : String) : strip (strip s) = strip s := by
  apply String.ext
  rw [strip_data, strip_data (s := s)]
  set m := List.dropWhile isWS s.data with hm
  have hdrop : List.dropWhile isWS (List.rdropWhile isWS m) = List.rdropWhile isWS m := by
    rcases h : List.rdropWhile isWS m with _ | ⟨a, as⟩
    · rfl
    · have hpfx : List.rdropWhile isWS m <+: m := List.rdropWhile_prefix _ _
      rw [h] at hpfx
      have hhead : m.head? = some a := by
        rw [head?_of_pre hpfx (by simp)]; rfl
      have : ¬ isWS a = true := by
        rcases hm2 : m with _ | ⟨b, bs⟩
        · rw [hm2] at hhead; cases hhead
        · rw [hm2] at hhead
          have hb : b = a := by simpa using hhead
          subst hb
          have := List.head_dropWhile_not isWS s.data
          rw [← hm] at this
          simp only [hm2] at this
          simpa using this (by simp)
      simp [List.dropWhile, this]
  rw [hdrop, List.rdropWhile_idempotent]

/-- `title` preserves length. -/
lemma titleAux_length (l : List Char) : ∀ b, (titleAux b l).length = l.length := by
  induction l with
  | nil => intro b; rfl
  | cons a as ih =>
    intro b
    by_cases h : isAsciiAlpha a = true <;> simp [titleAux, h, ih]

/-- A string is empty iff its character list is. -/
lemma data_eq_nil_iff {s : String} : s.data = [] ↔ s = "" := by
  constructor
  · intro h; exact String.ext h
  · intro h; subst h; rfl

/-- `title` of a non-empty string is non-empty. -/
lemma title_ne_empty {s : String} (h : s ≠ "") : title s ≠ "" := by
  intro hc
  apply h
  rw [← data_eq_nil_iff] at hc ⊢
  have := titleAux_length s.data false
  rw [show (title s).data = titleAux false s.data from rfl] at hc
  rw [hc] at this
  exact List.length_eq_zero.mp this.symm

/-- The escalation tail of `_standardize_value` when the cleaned value
still has substance: the stub answers, at confidence 0.82. -/
lemma standardize_online_part_online (vc field : String) (h : strip vc ≠ "") :
    standardize_online_part vc field =
      (title (strip vc), pct 82, "ONLINE", "online escalation for " ++ field) := by
  have hvc : vc ≠ "" := by
    intro hc; subst hc; exact h rfl
  rw [standardize_online_part, online_lookup, if_neg hvc]
  simp [title_ne_empty h]

/-- The escalation tail of `_standardize_value` when the cleaned value is
whitespace-only: unresolved. -/
lemma standardize_online_part_nmr (vc field : String) (h : strip vc = "") :
    standardize_online_part vc field = (vc, 0, "ONLINE", "Needs Manual Review") := by
  by_cases hvc : vc = ""
  · subst hvc; rfl
  · rw [standardize_online_part, online_lookup, if_neg hvc]
    have htitle : title "" = "" := rfl
    simp [h, htitle]

/-- Strings with different head characters differ. -/
lemma ne_of_head {s t : String} {a b : Char} (hs : s.data.head? = some a)
    (ht : t.data.head? = some b) (hab : a ≠ b) : s ≠ t := by
  intro h
  subst h
  rw [hs] at ht
  exact hab (Option.some.inj ht)

/-- `_standardize_value` past the missing and exact branches when the
fuzzy matcher returns nothing. -/
lemma standardize_value_fuzzy_none (reference : List String) (v field : String)
    (h0 : ¬ (v = "" ∨ lower v = "nan")) (h1 : strip v ∉ reference)
    (hbm : (best_match (strip v) reference).1 = none) :
    standardize_value reference v field = standardize_online_part (strip v) field := by
  simp only [standardize_value]
  rw [if_neg h0, if_neg h1, hbm]

/-- `_standardize_value` past the missing and exact branches when the
fuzzy matcher returns a best candidate. -/
lemma standardize_value_fuzzy_some (reference : List String) (v field b : String)
    (h0 : ¬ (v = "" ∨ lower v = "nan")) (h1 : strip v ∉ reference)
    (hbm : (best_match (strip v) reference).1 = some b) :
    standardize_value reference v field =
      (if b ≠ "" ∧ (best_match (strip v) reference).2 ≥ suggest_threshold then
         if (best_match (strip v) reference).2 ≥ accept_threshold then
           (b, (best_match (strip v) reference).2, "OFFLINE", "standardized " ++ field)
         else (b, (best_match (strip v) reference).2, "OFFLINE", "suggested " ++ field)
       else standardize_online_part (strip v) field) := by
  simp only [standardize_value]
  rw [if_neg h0, if_neg h1, hbm]

/-! ## C10 -/

/-- C10: the online-lookup stub returns a non-null title-cased suggestion
at confidence 0.82 for every non-empty input; consequently the unresolved
"Needs Manual Review" outcome of categorical standardization implies a
whitespace-only value, and every value with substance (non-empty,
not the `"nan"` placeholder) that misses the exact and fuzzy matches is
resolved ONLINE at confidence 0.82. -/
theorem c10_online_stub_total (reference : List String) (field v : String) :
    (v ≠ "" → online_lookup field v = (some (title (strip v)), pct 82)) ∧
    ((standardize_value reference v field).2.2.2 = "Needs Manual Review" → strip v = "") ∧
    (v ≠ "" → lower v ≠ "nan" → strip v ≠ "" → strip v ∉ reference →
      (∀ b, (best_match (strip v) reference).1 = some b →
        b = "" ∨ (best_match (strip v) reference).2 < suggest_threshold) →
      standardize_value reference v field =
        (title (strip v), pct 82, "ONLINE", "online escalation for " ++ field)) := by
  refine ⟨fun h => ?_, fun h => ?_, fun hv hnan hsv hmem hfuzzy => ?_⟩
  · rw [online_lookup, if_neg h]
  · by_cases h0 : v = "" ∨ lower v = "nan"
    · rw [standardize_value, if_pos h0] at h
      exact absurd h (ne_of_head rfl rfl (by decide))
    · by_cases h1 : strip v ∈ reference
      · simp only [standardize_value] at h
        rw [if_neg h0, if_pos h1] at h
        exact absurd h (ne_of_head rfl rfl (by decide))
      · by_cases h2 : strip v = ""
        · exact h2
        · exfalso
          have hsi : strip (strip v) ≠ "" := by rw [strip_idem]; exact h2
          rcases hbm : (best_match (strip v) reference).1 with _ | b
          · rw [standardize_value_fuzzy_none reference v field h0 h1 hbm,
              standardize_online_part_online _ _ hsi] at h
            exact absurd h (ne_of_head rfl rfl (by decide))
          · rw [standardize_value_fuzzy_some reference v field b h0 h1 hbm] at h
            by_cases hcond : b ≠ "" ∧ (best_match (strip v) reference).2 ≥ suggest_threshold
            · rw [if_pos hcond] at h
              by_cases hacc : (best_match (strip v) reference).2 ≥ accept_threshold
              · rw [if_pos hacc] at h
                exact absurd h (ne_of_head rfl rfl (by decide))
              · rw [if_neg hacc] at h
                exact absurd h (ne_of_head rfl rfl (by decide))
            · rw [if_neg hcond, standardize_online_part_online _ _ hsi] at h
              exact absurd h (ne_of_head rfl rfl (by decide))
  · have h0 : ¬ (v = "" ∨ lower v = "nan") := by
      rintro (h | h)
      · exact hv h
      · exact hnan h
    have hsi : strip (strip v) ≠ "" := by rw [strip_idem]; exact hsv
    have hres := standardize_online_part_online (strip v) field hsi
    rw [strip_idem] at hres
    rcases hbm : (best_match (strip v) reference).1 with _ | b
    · rw [standardize_value_fuzzy_none reference v field h0 hmem hbm]
      exact hres
    · rw [standardize_value_fuzzy_some reference v field b h0 hmem hbm]
      rcases hfuzzy b hbm with hb | hs
      · rw [if_neg (by simp [hb])]
        exact hres
      · rw [if_neg (by intro hc; exact absurd hc.2 (not_le.mpr hs))]
        exact hres

/-- Witness for C10 at a concrete whitespace-padded value against an empty
reference set. -/
theorem c10_witness :
    standardize_value [] "  acme corp" "country" =
      ("Acme Corp", pct 82, "ONLINE", "online escalation for country") := by
  have h := (c10_online_stub_total [] "country" "  acme corp").2.2
    (by decide) (by decide) (by decide) (by decide)
    (by intro b hb; simp [best_match] at hb)
  rw [h]
  decide

/-! ## C8 -/

/-- C8: strict phone validation strips non-digits; fewer than 10 or more
than 15 remaining digits fail with confidence 0, a MANUAL fix and the
digit count in the diagnostic; otherwise the canonical form is `"+"`
followed by the digits — an OFFLINE fix at confidence 0.85 when it differs
from the input, and a `"Valid"` result with no fix when it equals it. -/
theorem c8_phone_strict_behaviour (cols : List String) (row : Row) (idx : Nat) (st : Counters)
    (v : String) (hv : v ≠ "")
    (hmem : "phone" ∈ cols) (hcell : getRaw cols row "phone" = some (some v)) :
    ((onlyDigits v).data.length < 10 →
      validate_phone_strict v =
        (false, v, 0,
          "Invalid: only " ++ toString (onlyDigits v).data.length ++ " digits (need 10+)") ∧
      proc_phone cols row idx st =
        { st with
          invalid_count := st.invalid_count + 1
          invalid_records := st.invalid_records ++ [(idx, "phone", v,
            "Invalid: only " ++ toString (onlyDigits v).data.length ++ " digits (need 10+)")]
          fixes := st.fixes ++ [⟨idx, "phone", some v, v, 0, "MANUAL",
            "Invalid: only " ++ toString (onlyDigits v).data.length ++ " digits (need 10+)"⟩]
          manual_review := st.manual_review + 1 }) ∧
    (15 < (onlyDigits v).data.length →
      validate_phone_strict v =
        (false, v, 0,
          "Invalid: too many digits (" ++ toString (onlyDigits v).data.length ++ ")") ∧
      proc_phone cols row idx st =
        { st with
          invalid_count := st.invalid_count + 1
          invalid_records := st.invalid_records ++ [(idx, "phone", v,
            "Invalid: too many digits (" ++ toString (onlyDigits v).data.length ++ ")")]
          fixes := st.fixes ++ [⟨idx, "phone", some v, v, 0, "MANUAL",
            "Invalid: too many digits (" ++ toString (onlyDigits v).data.length ++ ")"⟩]
          manual_review := st.manual_review + 1 }) ∧
    (10 ≤ (onlyDigits v).data.length → (onlyDigits v).data.length ≤ 15 →
      "+" ++ onlyDigits v ≠ v →
      validate_phone_strict v = (true, "+" ++ onlyDigits v, pct 85, "Standardized format") ∧
      proc_phone cols row idx st =
        { st with
          standardized_count := st.standardized_count + 1
          fixes := st.fixes ++ [⟨idx, "phone", some v, "+" ++ onlyDigits v, pct 85,
            "OFFLINE", "Standardized format"⟩]
          offline_fixes := st.offline_fixes + 1 }) ∧
    (10 ≤ (onlyDigits v).data.length → (onlyDigits v).data.length ≤ 15 →
      "+" ++ onlyDigits v = v →
      validate_phone_strict v = (true, v, 1, "Valid") ∧
      proc_phone cols row idx st = st) := by
  refine ⟨fun h10 => ?_, fun h15 => ?_, fun hlo hhi hne => ?_, fun hlo hhi heq => ?_⟩
  · have hval : validate_phone_strict v =
        (false, v, 0,
          "Invalid: only " ++ toString (onlyDigits v).data.length ++ " digits (need 10+)") := by
      simp only [validate_phone_strict]
      rw [if_neg hv, if_pos h10]
    refine ⟨hval, ?_⟩
    simp only [proc_phone]
    rw [if_pos (Or.inl hmem), if_pos hmem, hcell]
    simp [hval, make_fix, round2_zero]
  · have hval : validate_phone_strict v =
        (false, v, 0,
          "Invalid: too many digits (" ++ toString (onlyDigits v).data.length ++ ")") := by
      simp only [validate_phone_strict]
      rw [if_neg hv, if_neg (by omega), if_pos h15]
    refine ⟨hval, ?_⟩
    simp only [proc_phone]
    rw [if_pos (Or.inl hmem), if_pos hmem, hcell]
    simp [hval, make_fix, round2_zero]
  · have hval : validate_phone_strict v =
        (true, "+" ++ onlyDigits v, pct 85, "Standardized format") := by
      simp only [validate_phone_strict]
      rw [if_neg hv, if_neg (by omega), if_neg (by omega), if_pos hne]
    refine ⟨hval, ?_⟩
    simp only [proc_phone]
    rw [if_pos (Or.inl hmem), if_pos hmem, hcell]
    simp [hval, make_fix, round2_pct85, hne]
  · have hval : validate_phone_strict v = (true, v, 1, "Valid") := by
      simp only [validate_phone_strict]
      rw [if_neg hv, if_neg (by omega), if_neg (by omega), if_neg (by simpa using heq)]
    refine ⟨hval, ?_⟩
    simp only [proc_phone]
    rw [if_pos (Or.inl hmem), if_pos hmem, hcell]
    simp [hval]

/-- Witness for C8 at the spec's example `"123-456-7890"`. -/
theorem c8_witness :
    validate_phone_strict "123-456-7890" = (true, "+1234567890", pct 85, "Standardized format") ∧
    proc_phone ["phone"] [some "123-456-7890"] 0 Counters.init =
      { Counters.init with
        standardized_count := 1
        fixes := [⟨0, "phone", some "123-456-7890", "+1234567890", pct 85,
          "OFFLINE", "Standardized format"⟩]
        offline_fixes := 1 } := by
  have h := (c8_phone_strict_behaviour ["phone"] [some "123-456-7890"] 0 Counters.init
    "123-456-7890" (by decide) (by decide) (by decide)).2.2.1
    (by decide) (by decide) (by decide)
  exact ⟨h.1.trans (by decide), h.2.trans (by decide)⟩

/-! ## C1 -/

/-- C1 counterexample: on the email value `"john@@gmial.com"` the pipeline
emits exactly one fix for the cell, but its mode is OFFLINE (the
auto-suggested repair `"john@gmial.com"` passes syntax validation), not
MANUAL as claimed. -/
theorem c1_counterexample :
    (process_dataframe ⟨[], [], [], []⟩ "people"
        ⟨["email"], [[some "john@@gmial.com"]]⟩).fixes.map
      (fun f => (f.processing_mode, f.confidence, f.note)) =
      [("OFFLINE", pct 85,
        "Auto-fixed: Invalid: contains 2 @ symbols (should be 1)")] := by
  decide

/-- C1 amended: for the email value `"john@@gmial.com"` in an email
column, the email block emits exactly one fix for that cell — an OFFLINE
fix at confidence 0.85 suggesting `"john@gmial.com"`, whose diagnostic
cites the two `"@"` symbols — and records the cell as invalid. -/
theorem c1_amended_double_at_offline (email_domains : List String) (cols : List String)
    (row : Row) (idx : Nat) (st : Counters)
    (hmem : "email" ∈ cols) (hcell : getRaw cols row "email" = some (some "john@@gmial.com")) :
    proc_email email_domains cols row idx st =
      { st with
        invalid_count := st.invalid_count + 1
        invalid_records := st.invalid_records ++ [(idx, "email", "john@@gmial.com",
          "Invalid: contains 2 @ symbols (should be 1)")]
        fixes := st.fixes ++ [⟨idx, "email", some "john@@gmial.com", "john@gmial.com", pct 85,
          "OFFLINE", "Auto-fixed: Invalid: contains 2 @ symbols (should be 1)"⟩]
        offline_fixes := st.offline_fixes + 1 } := by
  have hval : validate_email email_domains cols row "john@@gmial.com" =
      ("john@@gmial.com", 0, "MANUAL", "Invalid: contains 2 @ symbols (should be 1)") := by
    simp only [validate_email]
    rw [if_neg (by decide), if_pos (by decide), if_neg (by decide)]
    decide
  have hsugg : suggest_email_fix "john@@gmial.com" = "john@gmial.com" := by decide
  have hlib : emailLibValidate "john@gmial.com" =
      some ⟨"john@gmial.com", "john", "gmial.com"⟩ := by decide
  simp only [proc_email]
  rw [if_pos (Or.inl hmem), if_pos hmem, hcell]
  simp [hval, hsugg, hlib, make_fix, round2_pct85]

/-- Witness for the amended C1 at a concrete one-column table row. -/
theorem c1_witness :
    proc_email [] ["email"] [some "john@@gmial.com"] 0 Counters.init =
      { Counters.init with
        invalid_count := 1
        invalid_records := [(0, "email", "john@@gmial.com",
          "Invalid: contains 2 @ symbols (should be 1)")]
        fixes := [⟨0, "email", some "john@@gmial.com", "john@gmial.com", pct 85,
          "OFFLINE", "Auto-fixed: Invalid: contains 2 @ symbols (should be 1)"⟩]
        offline_fixes := 1 } := by
  have h := c1_amended_double_at_offline [] ["email"] [some "john@@gmial.com"] 0 Counters.init
    (by decide) (by decide)
  exact h.trans (by decide)

/-! ## C3 -/

/-- C3 counterexample: `"engineers"` is non-empty, is not an exact
dictionary hit, and contains the dictionary key `"engineer"` as a
substring, yet the pipeline resolves it through fuzzy matching at
confidence 0.8 with note `Similar to 'engineer'` — not at 0.75 with
"substring mapping" as claimed. -/
theorem c3_counterexample :
    hasSub "engineers" "engineer" = true ∧
    ([("engineer", "Software Engineer")].lookup (lower (strip "engineers")) = none) ∧
    (process_dataframe ⟨[], [], [("engineer", "Software Engineer")], []⟩ "people"
        ⟨["job_title"], [[some "engineers"]]⟩).fixes.map
      (fun f => (f.confidence, f.processing_mode, f.note)) =
      [(pct 80, "OFFLINE", "Similar to " ++ aposS ++ "engineer" ++ aposS)] := by
  refine ⟨by decide, by decide, by decide⟩

/-- C3 amended: the pipeline's job-title validation never produces the
substring-mapping outcome — its confidence is never 0.75 and its note is
never "substring mapping", even on a non-empty title that is not an exact
hit but contains a dictionary key; that heuristic exists only in the
pipeline-unreachable helper `_map_job_title`, which on such a title maps
the first containing key to its role at confidence 0.75. -/
theorem c3_amended_no_substring_mapping (jmap : List (String × String)) (tl : String)
    (kv : String × String)
    (hne : tl ≠ "") (hstrip : strip tl ≠ "")
    (hnokey : jmap.lookup (lower (strip tl)) = none)
    (hnokey2 : jmap.lookup (strip (lower tl)) = none)
    (hfind : jmap.find? (fun p => hasSub (strip (lower tl)) p.1) = some kv) :
    ((validate_job_title jmap tl).2.2.1 ≠ pct 75 ∧
     (validate_job_title jmap tl).2.2.2 ≠ "substring mapping") ∧
    map_job_title jmap tl = (kv.2, pct 75, "OFFLINE", "substring mapping") := by
  constructor
  · have hempty : ¬ (tl = "" ∨ strip tl = "") := by
      rintro (h | h)
      · exact hne h
      · exact hstrip h
    simp only [validate_job_title]
    rw [if_neg hempty]
    simp only [hnokey]
    by_cases hj : jmap = []
    · rw [if_neg (by simp [hj])]
      exact ⟨by decide, by decide⟩
    · rw [if_pos hj]
      rcases hex : extractOne (lower (strip tl)) (jmap.map fun p => p.1) tokenSortScore
        with _ | p
      · simp only [hex]
        exact ⟨by decide, by decide⟩
      · simp only [hex]
        by_cases h85 : p.2 ≥ 85
        · rw [if_pos h85]
          exact ⟨show pct 80 ≠ pct 75 by decide, ne_of_head rfl rfl (by decide)⟩
        · rw [if_neg h85]
          by_cases h70 : p.2 ≥ 70
          · rw [if_pos h70]
            exact ⟨show (0 : ℚ) ≠ pct 75 by decide, ne_of_head rfl rfl (by decide)⟩
          · rw [if_neg h70]
            exact ⟨show (0 : ℚ) ≠ pct 75 by decide,
              show "Unrecognized job title" ≠ "substring mapping" by decide⟩
  · simp only [map_job_title]
    rw [if_neg hne]
    simp only [hnokey2, hfind]

/-- Witness for the amended C3: `"senior engineer"` contains the key
`"engineer"`; the unused helper substring-maps it at 0.75 while the
pipeline's validator does not. -/
theorem c3_witness :
    map_job_title [("engineer", "Software Engineer")] "senior engineer" =
      ("Software Engineer", pct 75, "OFFLINE", "substring mapping") ∧
    (validate_job_title [("engineer", "Software Engineer")] "senior engineer").2.2.2 ≠
      "substring mapping" := by
  have h := c3_amended_no_substring_mapping [("engineer", "Software Engineer")]
    "senior engineer" ("engineer", "Software Engineer")
    (by decide) (by decide) (by decide) (by decide) (by decide)
  exact ⟨h.2, h.1.2⟩

/-! ## C2 -/

/-- `splitPred` never yields the empty list of chunks. -/
lemma splitPred_ne_nil (p : Char → Bool) (l : List Char) : splitPred p l ≠ [] := by
  induction l with
  | nil => simp [splitPred]
  | cons c cs ih =>
    show (if p c then [] :: splitPred p cs
          else match splitPred p cs with
               | [] => [[c]]
               | h :: t => (c :: h) :: t) ≠ []
    by_cases h : p c
    · simp [h]
    · rw [if_neg h]
      rcases hsp : splitPred p cs with _ | ⟨hd, tlr⟩
      · simp
      · simp

/-- Chunks produced by `splitPred` contain no separator character. -/
lemma mem_splitPred_not (p : Char → Bool) (l : List Char) :
    ∀ w ∈ splitPred p l, ∀ c ∈ w, p c = false := by
  induction l with
  | nil =>
    intro w hw c hc
    rw [show splitPred p [] = [[]] from rfl, List.mem_singleton] at hw
    subst hw
    cases hc
  | cons a as ih =>
    intro w hw c hc
    have hcons : splitPred p (a :: as) =
        (if p a then [] :: splitPred p as
         else match splitPred p as with
              | [] => [[a]]
              | h :: t => (a :: h) :: t) := rfl
    by_cases h : p a
    · rw [hcons, if_pos h] at hw
      rcases List.mem_cons.mp hw with rfl | hwtl
      · cases hc
      · exact ih w hwtl c hc
    · rw [hcons, if_neg h] at hw
      rcases hsp : splitPred p as with _ | ⟨hd, tlr⟩
      · exact absurd hsp (splitPred_ne_nil p as)
      · rw [hsp] at hw
        rcases List.mem_cons.mp hw with rfl | hwtl
        · rcases List.mem_cons.mp hc with rfl | hchd
          · simpa using h
          · exact ih hd (by rw [hsp]; exact List.mem_cons_self _ _) c hchd
        · exact ih w (by rw [hsp]; exact List.mem_cons_of_mem _ hwtl) c hc

/-- The chunk before the first separator contains no separator. -/
lemma headD_splitChar_no_sep (c : Char) (u : String) :
    hasChar ((splitChar c u).headD "") c = false := by
  have hne : splitChar c u ≠ [] := by
    rw [splitChar]
    intro hx
    exact splitPred_ne_nil _ u.data (List.map_eq_nil_iff.mp hx)
  rcases hsp : splitChar c u with _ | ⟨hd, tlr⟩
  · exact absurd hsp hne
  · have hmem : hd ∈ splitChar c u := by
      rw [hsp]
      exact List.mem_cons_self _ _
    rw [splitChar] at hmem
    obtain ⟨w, hwmem, hws⟩ := List.mem_map.mp hmem
    have hnosep := mem_splitPred_not _ u.data w hwmem
    show hd.data.contains c = false
    rw [← hws]
    show w.contains c = false
    rw [List.contains_eq_any_beq, List.any_eq_false]
    intro x hx
    have hxc := hnosep x hx
    simp only [decide_eq_false_iff_not] at hxc
    simp only [beq_iff_eq]
    exact fun hcx => hxc hcx.symm

/-- When the column is absent, `setCol` appends it on the right. -/
lemma setCol_absent (t : Table) (c : String) (vals : List Cell) (h : c ∉ t.cols) :
    setCol t c vals =
      { cols := t.cols ++ [c]
        rows := (t.rows.zip vals).map (fun rv => rv.1 ++ [rv.2]) } := by
  rw [setCol, List.findIdx?_eq_none_iff.mpr]
  intro x hx
  simp only [decide_eq_false_iff_not]
  intro hxc
  exact h (hxc ▸ hx)

/-- C2 counterexample: a table with only a `domain_url` column (no
`website`) passes the derivation guard but `_derive_domain` returns it
unchanged — no domain is derived, contradicting the claim. -/
theorem c2_counterexample :
    (process_dataframe ⟨[], [], [], []⟩ "people"
        ⟨["domain_url"], [[some "http://example.com/path"]]⟩).cleaned =
      ⟨["domain_url"], [[some "http://example.com/path"]]⟩ := by
  decide

/-- C2 amended: the derivation call is guarded by "no domain and
website-or-domain_url", but `_derive_domain` only derives from `website`:
with only `domain_url` the table is returned unchanged; with `website`
(and no `domain`) a `domain` column is appended whose cells are the
extraction of the website cells, where every successfully extracted
domain is non-empty, contains a `"."` and contains no `"/"` (the value is
lower-cased, trimmed, scheme occurrences removed, and cut at the first
`"/"`; failures are null). -/
theorem c2_amended_derive_from_website_only (t : Table) (v s : String) :
    ("domain" ∉ t.cols ∧ "website" ∉ t.cols ∧ "domain_url" ∈ t.cols →
      derive_domain t = t) ∧
    ("domain" ∉ t.cols ∧ "website" ∈ t.cols →
      (derive_domain t).cols = t.cols ++ ["domain"] ∧
      (derive_domain t).rows =
        (t.rows.zip ((colCells t "website").map extract_domain)).map
          (fun rv => rv.1 ++ [rv.2])) ∧
    extract_domain none = none ∧
    (extract_domain (some v) = some s →
      s ≠ "" ∧ hasChar s '.' = true ∧ hasChar s '/' = false) := by
  refine ⟨fun h => ?_, fun h => ?_, rfl, fun h => ?_⟩
  · rw [derive_domain, if_pos ⟨h.1, h.2.1⟩]
  · rw [derive_domain, if_neg (by simp [h.2]), if_neg (by simp [h.1]), if_neg (by simp [h.1]),
      setCol_absent _ _ _ h.1]
    exact ⟨rfl, rfl⟩
  · simp only [extract_domain] at h
    set X := (splitChar '/' (String.mk (stripSchemes (strip (lower v)).data.length
      (strip (lower v)).data))).headD "" with hX
    by_cases h1 : X = ""
    · rw [if_pos h1] at h
      cases h
    · rw [if_neg h1] at h
      by_cases h2 : hasChar X '.'
      · rw [if_neg (by simpa using h2)] at h
        have hs : s = X := (Option.some.inj h).symm
        subst hs
        exact ⟨h1, h2, hX ▸ headD_splitChar_no_sep '/' _⟩
      · rw [if_pos (by simpa using h2)] at h
        cases h

/-- Witness for the amended C2 at concrete tables and values. -/
theorem c2_witness :
    derive_domain ⟨["domain_url"], [[some "http://example.com/path"]]⟩ =
      ⟨["domain_url"], [[some "http://example.com/path"]]⟩ ∧
    (derive_domain ⟨["website"], [[some "https://Example.com/path/a"]]⟩).cols =
      ["website", "domain"] ∧
    ("example.com" ≠ "" ∧ hasChar "example.com" '.' = true ∧
      hasChar "example.com" '/' = false) := by
  refine ⟨?_, ?_, ?_⟩
  · exact (c2_amended_derive_from_website_only
      ⟨["domain_url"], [[some "http://example.com/path"]]⟩ "" "").1
      ⟨by decide, by decide, by decide⟩
  · have h := ((c2_amended_derive_from_website_only
      ⟨["website"], [[some "https://Example.com/path/a"]]⟩ "" "").2.1
      ⟨by decide, by decide⟩).1
    rw [h]
    decide
  · exact (c2_amended_derive_from_website_only ⟨[], []⟩ "https://Example.com/path/a"
      "example.com").2.2.2 (by decide)

/-! ## C7 -/

/-- Rectangularity: each row has exactly one cell per column. -/
def Rect (t : Table) : Prop := ∀ r ∈ t.rows, r.length = t.cols.length

/-- The dedup pass emits one flag per row. -/
lemma detectAux_length (data_type : String) (cols : List String) (st : DupState)
    (rows : List Row) : (detectAux data_type cols st rows).length = rows.length := by
  induction rows generalizing st with
  | nil => rfl
  | cons r rs ih => simp [detectAux, ih]

/-- Normalization preserves rectangularity. -/
lemma normalize_rect (t : Table) (h : Rect t) : Rect (normalize_table t) := by
  intro r hr
  simp only [normalize_table, List.mem_map] at hr
  obtain ⟨r0, hr0, rfl⟩ := hr
  simp [normalize_table, h r0 hr0]

/-- A column projection yields one cell per row. -/
lemma colCells_length (t : Table) (c : String) : (colCells t c).length = t.rows.length := by
  simp [colCells]

/-- `setCol` with one value per row preserves the row count. -/
lemma setCol_rows_length (t : Table) (c : String) (vals : List Cell)
    (h : vals.length = t.rows.length) : (setCol t c vals).rows.length = t.rows.length := by
  rw [setCol]
  rcases t.cols.findIdx? (fun x => x = c) with _ | i <;>
    simp [List.length_zip, h]

/-- `setCol` with one value per row preserves rectangularity. -/
lemma setCol_rect (t : Table) (c : String) (vals : List Cell)
    (hr : Rect t) (hlen : vals.length = t.rows.length) : Rect (setCol t c vals) := by
  rw [setCol]
  rcases t.cols.findIdx? (fun x => x = c) with _ | i
  · intro r hrm
    simp only [List.mem_map] at hrm
    obtain ⟨rv, hrv, rfl⟩ := hrm
    have hfst := (List.of_mem_zip hrv).1
    simp [hr rv.1 hfst]
  · intro r hrm
    simp only [List.mem_map] at hrm
    obtain ⟨rv, hrv, rfl⟩ := hrm
    have hfst := (List.of_mem_zip hrv).1
    simp [hr rv.1 hfst]

/-- `_derive_domain` preserves the row count. -/
lemma derive_rows_length (t : Table) : (derive_domain t).rows.length = t.rows.length := by
  rw [derive_domain]
  split_ifs with h1 h2 h3
  · rfl
  · exact setCol_rows_length _ _ _ (by simp [List.length_zip, colCells_length])
  · exact setCol_rows_length _ _ _ (by simp [colCells_length])
  · exact setCol_rows_length _ _ _ (by simp [colCells_length])

/-- `_derive_domain` preserves rectangularity. -/
lemma derive_rect (t : Table) (h : Rect t) : Rect (derive_domain t) := by
  rw [derive_domain]
  split_ifs with h1 h2 h3
  · exact h
  · exact setCol_rect _ _ _ h (by simp [List.length_zip, colCells_length])
  · exact setCol_rect _ _ _ h (by simp [colCells_length])
  · exact setCol_rect _ _ _ h (by simp [colCells_length])

/-- Mapping over a zip that only uses the first components. -/
lemma zip_map_eq_map {α β γ : Type} (rows : List α) (vals : List β)
    (h : vals.length = rows.length) (f : α × β → γ) (g : α → γ)
    (hfg : ∀ r ∈ rows, ∀ v : β, f (r, v) = g r) :
    (rows.zip vals).map f = rows.map g := by
  induction rows generalizing vals with
  | nil => simp
  | cons r rs ih =>
    cases vals with
    | nil => simp at h
    | cons v vs =>
      simp only [List.zip_cons_cons, List.map_cons]
      rw [hfg r (List.mem_cons_self _ _) v,
        ih vs (by simpa using h) (fun x hx w => hfg x (List.mem_cons_of_mem _ hx) w)]

/-- Kept positions of `dropCol` lie inside the column list. -/
lemma mem_keep_lt {cols : List String} {c : String} {ci : Nat × String}
    (h : ci ∈ (cols.enum).filter (fun x => x.2 ≠ c)) :
    ci.1 < cols.length ∧ cols.get? ci.1 = some ci.2 ∧ ci.2 ≠ c := by
  have hm := List.mem_filter.mp h
  have hget := List.mem_enum_iff_get?.mp hm.1
  refine ⟨?_, hget, by simpa using hm.2⟩
  have := List.get?_eq_some.mp hget
  exact this.1

/-- Overwriting or adding a column named `c` and then dropping `c`
is the same as just dropping `c` (on a rectangular table with one value
per row). -/
lemma dropCol_setCol_self (t : Table) (c : String) (vals : List Cell)
    (hrect : Rect t) (hlen : vals.length = t.rows.length) :
    dropCol (setCol t c vals) c = dropCol t c := by
  rcases hidx : t.cols.findIdx? (fun x => x = c) with _ | i
  · -- the column is new: it is appended then dropped again
    simp only [setCol, hidx]
    rw [dropCol, dropCol]
    have henum : (t.cols ++ [c]).enum = t.cols.enum ++ [(t.cols.length, c)] := by
      rw [List.enum_append]
      rfl
    rw [henum, List.filter_append,
      show List.filter (fun ci => ci.2 ≠ c) [(t.cols.length, c)] = [] by simp,
      List.append_nil]
    refine congrArg₂ Table.mk rfl ?_
    dsimp only
    simp only [List.map_map]
    refine zip_map_eq_map _ _ hlen _ _ (fun r hr v => ?_)
    dsimp only [Function.comp]
    refine List.map_congr_left (fun ci hci => ?_)
    have hlt := (mem_keep_lt hci).1
    have hrlen := hrect r hr
    simp only [List.getD_eq_getElem?_getD]
    rw [List.getElem?_append_left (by rw [hrlen]; exact hlt)]
  · -- the column exists: its cells are overwritten in place then dropped
    simp only [setCol, hidx]
    rw [dropCol, dropCol]
    refine congrArg₂ Table.mk rfl ?_
    dsimp only
    simp only [List.map_map]
    refine zip_map_eq_map _ _ hlen _ _ (fun r hr v => ?_)
    dsimp only [Function.comp]
    refine List.map_congr_left (fun ci hci => ?_)
    obtain ⟨hlt, hget, hne⟩ := mem_keep_lt hci
    have hii := List.findIdx?_eq_some_iff_getElem.mp hidx
    obtain ⟨hilt, hpi, _⟩ := hii
    have hceq : t.cols[i] = c := by simpa using hpi
    have hci2 : ci.1 ≠ i := by
      intro heq
      apply hne
      rw [heq, List.get?_eq_getElem?, List.getElem?_eq_getElem hilt] at hget
      exact (Option.some.inj hget).symm.trans hceq
    simp only [List.getD_eq_getElem?_getD]
    rw [List.getElem?_set_ne (Ne.symm hci2)]

/-- Row count is preserved by `dropCol`. -/
lemma dropCol_rows_length (t : Table) (c : String) :
    (dropCol t c).rows.length = t.rows.length := by
  simp [dropCol]

/-- The dropped column name is gone from the result. -/
lemma not_mem_dropCol_cols (t : Table) (c : String) : c ∉ (dropCol t c).cols := by
  intro h
  simp only [dropCol, List.mem_map] at h
  obtain ⟨ci, hci, hc⟩ := h
  have := (List.mem_filter.mp hci).2
  simp [hc] at this

/-- Row count is preserved by normalization. -/
lemma normalize_rows_length (t : Table) :
    (normalize_table t).rows.length = t.rows.length := by
  simp [normalize_table]

/-- The `cleaned_data` output unfolded: drop the flag column from the
flagged, derived, normalized table. -/
lemma process_dataframe_cleaned_eq (ref : RefData) (data_type : String) (t0 : Table) :
    (process_dataframe ref data_type t0).cleaned =
      dropCol
        (setCol
          (if "domain" ∉ (normalize_table t0).cols ∧
              ("website" ∈ (normalize_table t0).cols ∨ "domain_url" ∈ (normalize_table t0).cols)
           then derive_domain (normalize_table t0) else normalize_table t0)
          "is_duplicate"
          ((detect_duplicates data_type
            (if "domain" ∉ (normalize_table t0).cols ∧
                ("website" ∈ (normalize_table t0).cols ∨ "domain_url" ∈ (normalize_table t0).cols)
             then derive_domain (normalize_table t0) else normalize_table t0)).1.map
            (fun b => some (if b then "True" else "False"))))
        "is_duplicate" := rfl

/-- C7 counterexample: an input column named `is_duplicate` is silently
overwritten by the internal flag and then dropped — the cleaned output
does not contain every original column. -/
theorem c7_counterexample :
    "is_duplicate" ∈ (normalize_table ⟨["a", "is_duplicate"], [[some "x", some "y"]]⟩).cols ∧
    (process_dataframe ⟨[], [], [], []⟩ "people"
        ⟨["a", "is_duplicate"], [[some "x", some "y"]]⟩).cleaned =
      ⟨["a"], [[some "x"]]⟩ := by
  exact ⟨by decide, by decide⟩

/-- C7 amended: for every rectangular input table, the cleaned output is
exactly the normalized (and possibly domain-derived) table with every
column named `is_duplicate` removed: row order and count are preserved
and all other original and derived columns survive with their values,
but an input column named `is_duplicate` is destroyed by the internal
duplicate-flag marker and dropped with it. -/
theorem c7_amended_cleaned_drops_flag (ref : RefData) (data_type : String) (t0 : Table)
    (hrect : ∀ r ∈ t0.rows, r.length = t0.cols.length) :
    ((process_dataframe ref data_type t0).cleaned =
      dropCol
        (if "domain" ∉ (normalize_table t0).cols ∧
            ("website" ∈ (normalize_table t0).cols ∨ "domain_url" ∈ (normalize_table t0).cols)
         then derive_domain (normalize_table t0) else normalize_table t0)
        "is_duplicate") ∧
    "is_duplicate" ∉ (process_dataframe ref data_type t0).cleaned.cols ∧
    (process_dataframe ref data_type t0).cleaned.rows.length = t0.rows.length := by
  have hkey := process_dataframe_cleaned_eq ref data_type t0
  have hrect1 : Rect (normalize_table t0) := normalize_rect t0 hrect
  have hrectT : Rect (if "domain" ∉ (normalize_table t0).cols ∧
      ("website" ∈ (normalize_table t0).cols ∨ "domain_url" ∈ (normalize_table t0).cols)
    then derive_domain (normalize_table t0) else normalize_table t0) := by
    split_ifs
    · exact derive_rect _ hrect1
    · exact hrect1
  have hlenT : (if "domain" ∉ (normalize_table t0).cols ∧
      ("website" ∈ (normalize_table t0).cols ∨ "domain_url" ∈ (normalize_table t0).cols)
    then derive_domain (normalize_table t0) else normalize_table t0).rows.length =
      t0.rows.length := by
    split_ifs
    · rw [derive_rows_length, normalize_rows_length]
    · rw [normalize_rows_length]
  have hdrop := dropCol_setCol_self
    (if "domain" ∉ (normalize_table t0).cols ∧
        ("website" ∈ (normalize_table t0).cols ∨ "domain_url" ∈ (normalize_table t0).cols)
      then derive_domain (normalize_table t0) else normalize_table t0)
    "is_duplicate"
    ((detect_duplicates data_type
      (if "domain" ∉ (normalize_table t0).cols ∧
          ("website" ∈ (normalize_table t0).cols ∨ "domain_url" ∈ (normalize_table t0).cols)
        then derive_domain (normalize_table t0) else normalize_table t0)).1.map
      (fun b => some (if b then "True" else "False")))
    hrectT
    (by
      rw [List.length_map]
      exact detectAux_length _ _ _ _)
  have hmain := hkey.trans hdrop
  refine ⟨hmain, ?_, ?_⟩
  · rw [hmain]
    exact not_mem_dropCol_cols _ _
  · rw [hmain, dropCol_rows_length]
    exact hlenT

/-- Witness for the amended C7 on a concrete table with a derived
column. -/
theorem c7_witness :
    (process_dataframe ⟨[], [], [], []⟩ "people"
        ⟨["Name", "website"], [[some "Bob", some "http://x.co/y"]]⟩).cleaned =
      ⟨["name", "website", "domain"],
        [[some "Bob", some "http://x.co/y", some "x.co"]]⟩ ∧
    "is_duplicate" ∉ (process_dataframe ⟨[], [], [], []⟩ "people"
        ⟨["Name", "website"], [[some "Bob", some "http://x.co/y"]]⟩).cleaned.cols := by
  have h := c7_amended_cleaned_drops_flag ⟨[], [], [], []⟩ "people"
    ⟨["Name", "website"], [[some "Bob", some "http://x.co/y"]]⟩ (by decide)
  exact ⟨h.1.trans (by decide), h.2.1⟩

/-! ## C5 -/

/-- `times100` is multiplication by 100. -/
lemma times100_eq (q : ℚ) : times100 q = q * 100 := by
  rw [times100, Rat.divInt_eq_div]
  push_cast
  rw [mul_div_right_comm, Rat.num_div_den]

/-- An empty table has no nulls. -/
lemma totalMissing_nil (t : Table) (h : t.rows = []) : totalMissing t = 0 := by
  rw [totalMissing]
  apply List.sum_eq_zero
  intro x hx
  obtain ⟨i, _, rfl⟩ := List.mem_map.mp hx
  simp [nullsInCol, h]

/-- C5: the reported quality score is
`max(0, min(100, 100 − round(100·penalty/(total_cells+1), 2)))` with
`penalty = total_nulls + invalid + 2·duplicates + 3·manual_review` and
`total_cells` the processed table's row count times its column count; it
always lies in `[0, 100]`; and on an empty table the denominator is `1`,
so the score is still defined. -/
theorem c5_quality_score_formula (t : Table)
    (invalid_count standardized_count duplicate_count offline_fixes online_fixes
      manual_review : Nat) :
    ((build_report t invalid_count standardized_count duplicate_count offline_fixes
        online_fixes manual_review).overall_quality_score =
      max 0 (min 100 (100 - round2 (
        100 * ((totalMissing t : ℚ) + invalid_count + 2 * duplicate_count + 3 * manual_review) /
          ((t.rows.length : ℚ) * (t.cols.length : ℚ) + 1))))) ∧
    (0 ≤ (build_report t invalid_count standardized_count duplicate_count offline_fixes
        online_fixes manual_review).overall_quality_score ∧
      (build_report t invalid_count standardized_count duplicate_count offline_fixes
        online_fixes manual_review).overall_quality_score ≤ 100) ∧
    (t.rows = [] →
      (build_report t invalid_count standardized_count duplicate_count offline_fixes
          online_fixes manual_review).overall_quality_score =
        max 0 (min 100 (100 - round2 (
          100 * ((invalid_count : ℚ) + 2 * duplicate_count + 3 * manual_review))))) := by
  have harg : times100 (Rat.divInt
      ((totalMissing t + invalid_count + duplicate_count * 2 + manual_review * 3 : ℕ) : ℤ)
      (((t.rows.length * t.cols.length : ℕ) : ℤ) + 1)) =
      100 * ((totalMissing t : ℚ) + invalid_count + 2 * duplicate_count + 3 * manual_review) /
        ((t.rows.length : ℚ) * (t.cols.length : ℚ) + 1) := by
    rw [times100_eq, Rat.divInt_eq_div]
    push_cast
    ring
  have hmain : (build_report t invalid_count standardized_count duplicate_count offline_fixes
      online_fixes manual_review).overall_quality_score =
      max 0 (min 100 (100 - round2 (
        100 * ((totalMissing t : ℚ) + invalid_count + 2 * duplicate_count + 3 * manual_review) /
          ((t.rows.length : ℚ) * (t.cols.length : ℚ) + 1)))) := by
    simp only [build_report]
    rw [harg]
  refine ⟨hmain, ⟨le_max_left _ _, ?_⟩, fun hnil => ?_⟩
  · simp only [build_report]
    exact max_le (by norm_num) (min_le_left _ _)
  · rw [hmain, totalMissing_nil t hnil, hnil]
    norm_num

/-- Witness for C5 at a concrete empty table with non-zero counters. -/
theorem c5_witness :
    (build_report ⟨["a"], []⟩ 1 0 1 0 0 2).overall_quality_score =
      max 0 (min 100 (100 - round2 (
        100 * (((1 : ℕ) : ℚ) + 2 * ((1 : ℕ) : ℚ) + 3 * ((2 : ℕ) : ℚ))))) :=
  (c5_quality_score_formula ⟨["a"], []⟩ 1 0 1 0 0 2).2.2 rfl

/-! ## Rounding bounds (for C6) -/

/-- The floor division underlying `roundHalfEven` sits below the value. -/
lemma fdiv_cast_le (q : ℚ) : ((Int.fdiv q.num q.den : ℤ) : ℚ) ≤ q := by
  have hden : (0 : ℤ) < (q.den : ℤ) := by exact_mod_cast q.den_pos
  have hdenq : (0 : ℚ) < (q.den : ℚ) := by exact_mod_cast q.den_pos
  have hmod := Int.fmod_nonneg' q.num hden
  have hsum := Int.fdiv_add_fmod q.num (q.den : ℤ)
  have hkeyz : Int.fdiv q.num q.den * (q.den : ℤ) ≤ q.num := by
    have h1 : (q.den : ℤ) * Int.fdiv q.num q.den ≤ q.num := by linarith
    linarith [mul_comm (Int.fdiv q.num (q.den : ℤ)) ((q.den : ℤ))]
  calc ((Int.fdiv q.num q.den : ℤ) : ℚ) ≤ (q.num : ℚ) / (q.den : ℚ) := by
        rw [le_div_iff hdenq]
        exact_mod_cast hkeyz
    _ = q := Rat.num_div_den q

/-- When the doubled remainder reaches the denominator, the value is at
least the floor plus one half. -/
lemma half_le_of_big_rem (q : ℚ)
    (h : (q.den : ℤ) ≤ 2 * (q.num - Int.fdiv q.num q.den * q.den)) :
    ((Int.fdiv q.num q.den : ℤ) : ℚ) + 1/2 ≤ q := by
  have hdenq : (0 : ℚ) < (q.den : ℚ) := by exact_mod_cast q.den_pos
  have hcast : ((q.den : ℕ) : ℚ) ≤ 2 * ((q.num : ℚ) -
      ((Int.fdiv q.num q.den : ℤ) : ℚ) * ((q.den : ℕ) : ℚ)) := by
    exact_mod_cast h
  have key : (((Int.fdiv q.num q.den : ℤ) : ℚ) + 1/2) * (q.den : ℚ) ≤ (q.num : ℚ) := by
    ring_nf
    ring_nf at hcast
    linarith
  calc ((Int.fdiv q.num q.den : ℤ) : ℚ) + 1/2 ≤ (q.num : ℚ) / (q.den : ℚ) := by
        rw [le_div_iff hdenq]
        exact key
    _ = q := Rat.num_div_den q

/-- `roundHalfEven` of a non-negative rational is non-negative. -/
lemma roundHalfEven_nonneg (q : ℚ) (h : 0 ≤ q) : 0 ≤ roundHalfEven q := by
  have hf : 0 ≤ Int.fdiv q.num q.den :=
    Int.fdiv_nonneg (Rat.num_nonneg.mpr h) (by exact_mod_cast Nat.zero_le q.den)
  simp only [roundHalfEven]
  split_ifs <;> omega

/-- `roundHalfEven` never exceeds an integer bound of its argument. -/
lemma roundHalfEven_le (q : ℚ) (n : ℤ) (h : q ≤ (n : ℚ)) : roundHalfEven q ≤ n := by
  have hfle : ((Int.fdiv q.num q.den : ℤ) : ℚ) ≤ q := fdiv_cast_le q
  have hf_le_n : Int.fdiv q.num q.den ≤ n := by exact_mod_cast hfle.trans h
  simp only [roundHalfEven]
  split_ifs with h1 h2 h3
  · exact hf_le_n
  · have hhalf := half_le_of_big_rem q (by omega)
    by_contra hc
    push_neg at hc
    have hn_le_f : n ≤ Int.fdiv q.num q.den := by omega
    have hx : ((Int.fdiv q.num q.den : ℤ) : ℚ) + 1/2 ≤ ((Int.fdiv q.num q.den : ℤ) : ℚ) :=
      (hhalf.trans h).trans (by exact_mod_cast hn_le_f)
    linarith
  · exact hf_le_n
  · have hhalf := half_le_of_big_rem q (by omega)
    by_contra hc
    push_neg at hc
    have hn_le_f : n ≤ Int.fdiv q.num q.den := by omega
    have hx : ((Int.fdiv q.num q.den : ℤ) : ℚ) + 1/2 ≤ ((Int.fdiv q.num q.den : ℤ) : ℚ) :=
      (hhalf.trans h).trans (by exact_mod_cast hn_le_f)
    linarith

/-- `round(·, 2)` preserves non-negativity. -/
lemma round2_nonneg (q : ℚ) (h : 0 ≤ q) : 0 ≤ round2 q := by
  rw [round2, Rat.divInt_eq_div]
  apply div_nonneg _ (by norm_num)
  exact_mod_cast roundHalfEven_nonneg (times100 q) (by rw [times100_eq]; positivity)

/-- `round(·, 2)` preserves the upper bound 1. -/
lemma round2_le_one (q : ℚ) (h : q ≤ 1) : round2 q ≤ 1 := by
  rw [round2, Rat.divInt_eq_div]
  rw [div_le_one (by norm_num)]
  exact_mod_cast roundHalfEven_le (times100 q) 100
    (by rw [times100_eq]; push_cast; nlinarith)

/-! ## C6: fix-event invariants -/

/-- Longest common subsequences are no longer than the left input. -/
lemma lcsAux_le_left : ∀ (fuel : Nat) (a b : List Char), lcsAux fuel a b ≤ a.length := by
  intro fuel
  induction fuel with
  | zero => intro a b; simp [lcsAux]
  | succ n ih =>
    intro a b
    cases a with
    | nil => simp [lcsAux]
    | cons x xs =>
      cases b with
      | nil => simp [lcsAux]
      | cons y ys =>
        simp only [lcsAux, List.length_cons]
        by_cases h : x = y
        · rw [if_pos h]
          exact Nat.succ_le_succ (ih xs ys)
        · rw [if_neg h]
          apply max_le
          · exact ih (x :: xs) ys
          · exact Nat.le_succ_of_le (ih xs (y :: ys))

/-- Longest common subsequences are no longer than the right input. -/
lemma lcsAux_le_right : ∀ (fuel : Nat) (a b : List Char), lcsAux fuel a b ≤ b.length := by
  intro fuel
  induction fuel with
  | zero => intro a b; simp [lcsAux]
  | succ n ih =>
    intro a b
    cases a with
    | nil => simp [lcsAux]
    | cons x xs =>
      cases b with
      | nil => simp [lcsAux]
      | cons y ys =>
        simp only [lcsAux, List.length_cons]
        by_cases h : x = y
        · rw [if_pos h]
          exact Nat.succ_le_succ (ih xs ys)
        · rw [if_neg h]
          apply max_le
          · exact Nat.le_succ_of_le (ih (x :: xs) ys)
          · exact ih xs (y :: ys)

/-- `fuzz.ratio` scores lie on the 0–100 scale. -/
lemma fuzzScore_bounds (a b : String) : 0 ≤ fuzzScore a b ∧ fuzzScore a b ≤ 100 := by
  rw [fuzzScore]
  split_ifs with h
  · exact ⟨by norm_num, by norm_num⟩
  · constructor
    · rw [Rat.divInt_eq_div]
      apply div_nonneg <;> positivity
    · rw [Rat.divInt_eq_div]
      push_cast
      have hpos : (0 : ℚ) < (a.data.length : ℚ) + (b.data.length : ℚ) := by
        have hlen : 0 < a.data.length + b.data.length := Nat.pos_of_ne_zero h
        exact_mod_cast hlen
      rw [div_le_iff hpos]
      have hl := lcsAux_le_left (a.data.length + b.data.length) a.data b.data
      have hr := lcsAux_le_right (a.data.length + b.data.length) a.data b.data
      have hn : 200 * lcs a.data b.data ≤ 100 * (a.data.length + b.data.length) := by
        rw [lcs]
        omega
      exact_mod_cast hn

/-- `token_sort_ratio` scores lie on the 0–100 scale. -/
lemma tokenSortScore_bounds (a b : String) :
    0 ≤ tokenSortScore a b ∧ tokenSortScore a b ≤ 100 := fuzzScore_bounds _ _

/-- Invariant propagation along an option-valued fold. -/
lemma foldl_opt_bounds {f : Option (String × ℚ) → String → Option (String × ℚ)}
    (P : String × ℚ → Prop)
    (hf : ∀ acc c p', f acc c = some p' → P p' ∨ acc = some p') :
    ∀ (cs : List String) (acc : Option (String × ℚ)), (∀ p, acc = some p → P p) →
      ∀ p, cs.foldl f acc = some p → P p := by
  intro cs
  induction cs with
  | nil => exact fun acc hacc p hp => hacc p hp
  | cons c cs ih =>
    intro acc hacc p hp
    refine ih (f acc c) ?_ p hp
    intro p' hp'
    rcases hf acc c p' hp' with h | h
    · exact h
    · exact hacc p' h

/-- `extractOne` only reports scores actually produced by the scorer, so
scorer bounds carry over. -/
lemma extractOne_bounds (query : String) (cs : List String) (scorer : String → String → ℚ)
    (hs : ∀ c, 0 ≤ scorer query c ∧ scorer query c ≤ 100) :
    ∀ p, extractOne query cs scorer = some p → 0 ≤ p.2 ∧ p.2 ≤ 100 := by
  intro p hp
  rw [extractOne] at hp
  refine foldl_opt_bounds (fun p => 0 ≤ p.2 ∧ p.2 ≤ 100) ?_ cs none
    (by intro p hp; cases hp) p hp
  intro acc c p' hp'
  rcases acc with _ | bs
  · dsimp only at hp'
    left
    cases hp'
    exact hs c
  · dsimp only at hp'
    by_cases hgt : scorer query c > bs.2
    · rw [if_pos hgt] at hp'
      left
      cases hp'
      exact hs c
    · rw [if_neg hgt] at hp'
      right
      exact hp'.symm ▸ rfl

/-- `div100` is division by 100. -/
lemma div100_eq (q : ℚ) : div100 q = q / 100 := by
  rw [div100, Rat.divInt_eq_div]
  push_cast
  rw [← div_div, Rat.num_div_den]

/-- `_best_match` scores lie in `[0, 1]`. -/
lemma best_match_bounds (v : String) (reference : List String) :
    0 ≤ (best_match v reference).2 ∧ (best_match v reference).2 ≤ 1 := by
  rw [best_match]
  split_ifs with h
  · exact ⟨le_refl 0, by norm_num⟩
  · rcases hex : extractOne v reference tokenSortScore with _ | p
    · exact ⟨le_refl 0, by norm_num⟩
    · have hb := extractOne_bounds v reference tokenSortScore
        (fun c => tokenSortScore_bounds v c) p hex
      dsimp only
      rw [div100_eq]
      constructor
      · exact div_nonneg hb.1 (by norm_num)
      · rw [div_le_one (by norm_num)]
        exact hb.2

/-- The property every emitted fix satisfies. -/
def FixOK (f : Fix) : Prop :=
  0 ≤ f.confidence ∧ f.confidence ≤ 1 ∧ (f.processing_mode = "MANUAL" → f.confidence = 0)

/-- `_make_fix` yields a `FixOK` event from an in-range confidence. -/
lemma make_fix_ok (idx : Nat) (field : String) (orig : Cell) (sugg : String) (conf : ℚ)
    (mode note : String) (h0 : 0 ≤ conf) (h1 : conf ≤ 1) (hm : mode = "MANUAL" → conf = 0) :
    FixOK (make_fix idx field orig sugg conf mode note) := by
  refine ⟨round2_nonneg conf h0, round2_le_one conf h1, fun h => ?_⟩
  have hc : conf = 0 := hm h
  show round2 conf = 0
  rw [hc, round2_zero]

/-- The two pipeline counting rules: one increment per MANUAL fix plus
one per low-confidence ONLINE fix. -/
def manualCount (l : List Fix) : Nat :=
  l.countP (fun f => f.processing_mode == "MANUAL") +
  l.countP (fun f => f.processing_mode == "ONLINE" && decide (f.confidence < accept_threshold))

/-- `manualCount` of nothing. -/
lemma manualCount_nil : manualCount [] = 0 := rfl

/-- `manualCount` is additive. -/
lemma manualCount_append (a b : List Fix) :
    manualCount (a ++ b) = manualCount a + manualCount b := by
  simp [manualCount, List.countP_append]
  ring

/-- A single MANUAL fix counts once. -/
lemma manualCount_manual (f : Fix) (h : f.processing_mode = "MANUAL") :
    manualCount [f] = 1 := by
  simp [manualCount, List.countP_cons, h]

/-- A single OFFLINE fix counts zero. -/
lemma manualCount_offline (f : Fix) (h : f.processing_mode = "OFFLINE") :
    manualCount [f] = 0 := by
  simp [manualCount, List.countP_cons, h]

/-- A single ONLINE fix counts by the low-confidence test. -/
lemma manualCount_online (f : Fix) (h : f.processing_mode = "ONLINE") :
    manualCount [f] = if f.confidence < accept_threshold then 1 else 0 := by
  simp only [manualCount, List.countP_cons, List.countP_nil, h]
  by_cases hc : f.confidence < accept_threshold <;> simp [hc]

/-- A processing step that appends only well-formed fixes and counts
manual review consistently. -/
def StepOK (g : Counters → Counters) : Prop :=
  ∀ st, ∃ new, (g st).fixes = st.fixes ++ new ∧ (∀ f ∈ new, FixOK f) ∧
    (g st).manual_review = st.manual_review + manualCount new

/-- Step composition preserves the invariant. -/
lemma StepOK.comp {g h : Counters → Counters} (hg : StepOK g) (hh : StepOK h) :
    StepOK (fun st => h (g st)) := by
  intro st
  obtain ⟨n1, e1, p1, m1⟩ := hg st
  obtain ⟨n2, e2, p2, m2⟩ := hh (g st)
  refine ⟨n1 ++ n2, ?_, ?_, ?_⟩
  · rw [e2, e1, List.append_assoc]
  · intro f hf
    rcases List.mem_append.mp hf with h | h
    · exact p1 f h
    · exact p2 f h
  · rw [m2, m1, manualCount_append]
    ring

/-- The identity step. -/
lemma stepOK_id : StepOK (fun st => st) := by
  intro st
  exact ⟨[], by simp, by simp, by simp [manualCount_nil]⟩

/-- `round(0.82, 2) = 0.82`. -/
lemma round2_pct82 : round2 (pct 82) = pct 82 := by decide

/-- A string equal to one literal differs from a different literal. -/
lemma str_ne_trans {m a b : String} (h : m = a) (hab : ¬ a = b) : ¬ m = b :=
  fun hb => hab (h.symm.trans hb)

/-- The escalation tail of `_standardize_value`: mode is always ONLINE and
the confidence is `0` or `0.82`. -/
lemma standardize_online_part_facts (vc field : String) :
    0 ≤ (standardize_online_part vc field).2.1 ∧
      (standardize_online_part vc field).2.1 ≤ 1 ∧
      ((standardize_online_part vc field).2.2.1 = "OFFLINE" ∨
        (standardize_online_part vc field).2.2.1 = "ONLINE") ∧
      ((standardize_online_part vc field).2.2.1 = "ONLINE" →
        (standardize_online_part vc field).2.1 = 0 ∨
          (standardize_online_part vc field).2.1 = pct 82) := by
  by_cases hvc : vc = ""
  · simp only [standardize_online_part, online_lookup, if_pos hvc]
    refine ⟨?_, ?_, ?_, ?_⟩ <;> dsimp only <;> decide
  · simp only [standardize_online_part, online_lookup, if_neg hvc]
    split
    · refine ⟨?_, ?_, ?_, ?_⟩ <;> dsimp only <;> decide
    · refine ⟨?_, ?_, ?_, ?_⟩ <;> dsimp only <;> decide

/-- `_standardize_value` facts: confidence in `[0, 1]`, mode OFFLINE or
ONLINE, and every ONLINE confidence is `0` or `0.82`. -/
lemma standardize_value_facts (reference : List String) (v field : String) :
    0 ≤ (standardize_value reference v field).2.1 ∧
      (standardize_value reference v field).2.1 ≤ 1 ∧
      ((standardize_value reference v field).2.2.1 = "OFFLINE" ∨
        (standardize_value reference v field).2.2.1 = "ONLINE") ∧
      ((standardize_value reference v field).2.2.1 = "ONLINE" →
        (standardize_value reference v field).2.1 = 0 ∨
          (standardize_value reference v field).2.1 = pct 82) := by
  simp only [standardize_value]
  repeat' split
  all_goals first
    | (refine ⟨?_, ?_, ?_, ?_⟩ <;> dsimp only <;> decide)
    | exact ⟨(best_match_bounds (strip v) reference).1,
        (best_match_bounds (strip v) reference).2, Or.inl rfl,
        fun h => absurd h (by dsimp only; decide)⟩
    | exact standardize_online_part_facts (strip v) field

/-- `_validate_email` facts: confidence in `[0, 1]`, mode OFFLINE or
MANUAL, and every MANUAL return has confidence `0`. -/
lemma validate_email_facts (doms cols : List String) (row : Row) (e : String) :
    0 ≤ (validate_email doms cols row e).2.1 ∧
      (validate_email doms cols row e).2.1 ≤ 1 ∧
      ((validate_email doms cols row e).2.2.1 = "OFFLINE" ∨
        (validate_email doms cols row e).2.2.1 = "MANUAL") ∧
      ((validate_email doms cols row e).2.2.1 = "MANUAL" →
        (validate_email doms cols row e).2.1 = 0) := by
  simp only [validate_email]
  repeat' split
  all_goals refine ⟨?_, ?_, ?_, ?_⟩ <;> dsimp only <;> decide

/-- `_validate_job_title` confidences lie in `[0, 1]`. -/
lemma validate_job_title_conf_facts (jmap : List (String × String)) (jt : String) :
    0 ≤ (validate_job_title jmap jt).2.2.1 ∧ (validate_job_title jmap jt).2.2.1 ≤ 1 := by
  simp only [validate_job_title]
  repeat' split
  all_goals refine ⟨?_, ?_⟩ <;> dsimp only <;> decide

/-- `_validate_phone_strict` confidences lie in `[0, 1]`. -/
lemma validate_phone_conf_facts (p : String) :
    0 ≤ (validate_phone_strict p).2.2.1 ∧ (validate_phone_strict p).2.2.1 ≤ 1 := by
  simp only [validate_phone_strict]
  repeat' split
  all_goals refine ⟨?_, ?_⟩ <;> dsimp only <;> decide

/-- `manualCount` of one `_make_fix` event, by its mode and raw
confidence. -/
lemma manualCount_mk (idx : Nat) (field : String) (orig : Cell) (sugg : String)
    (conf : ℚ) (mode note : String) :
    manualCount [make_fix idx field orig sugg conf mode note] =
      (if mode = "MANUAL" then 1 else 0) +
        if mode = "ONLINE" ∧ round2 conf < accept_threshold then 1 else 0 := by
  by_cases hm : mode = "MANUAL"
  · by_cases ho : mode = "ONLINE"
    · rw [hm] at ho
      exact absurd ho (by decide)
    · simp [manualCount, List.countP_cons, make_fix, hm, ho]
  · by_cases ho : mode = "ONLINE"
    · by_cases hc : round2 conf < accept_threshold <;>
        simp [manualCount, List.countP_cons, make_fix, hm, ho, hc]
    · simp [manualCount, List.countP_cons, make_fix, hm, ho]



/-- `manualCount` of one MANUAL fix. -/
lemma manualCount_mk_manual (idx : Nat) (field : String) (orig : Cell) (sugg : String)
    (conf : ℚ) (note : String) :
    manualCount [make_fix idx field orig sugg conf "MANUAL" note] = 1 := by
  rw [manualCount_mk]
  simp

/-- `manualCount` of one OFFLINE fix. -/
lemma manualCount_mk_offline (idx : Nat) (field : String) (orig : Cell) (sugg : String)
    (conf : ℚ) (note : String) :
    manualCount [make_fix idx field orig sugg conf "OFFLINE" note] = 0 := by
  rw [manualCount_mk]
  simp

/-- `manualCount` of one ONLINE fix. -/
lemma manualCount_mk_online (idx : Nat) (field : String) (orig : Cell) (sugg : String)
    (conf : ℚ) (note : String) :
    manualCount [make_fix idx field orig sugg conf "ONLINE" note] =
      if round2 conf < accept_threshold then 1 else 0 := by
  rw [manualCount_mk]
  simp

/-- The categorical block only appends well-formed fixes and counts
manual review consistently. -/
lemma proc_categorical_ok (reference : List String) (field : String) (cols : List String)
    (row : Row) (idx : Nat) : StepOK (proc_categorical reference field cols row idx) := by
  intro st
  obtain ⟨h0, h1, hmode, honl⟩ := standardize_value_facts reference (strGet cols row field) field
  simp only [proc_categorical]
  split
  · split
    · rcases hmode with hOff | hOnl
      · rw [if_neg (fun h => absurd h.1 (str_ne_trans hOff (by decide))), if_pos hOff]
        refine ⟨_, rfl, ?_, ?_⟩
        · intro f hf
          rw [List.mem_singleton] at hf
          subst hf
          exact make_fix_ok _ _ _ _ _ _ _ h0 h1
            (fun hm => absurd hm (str_ne_trans hOff (by decide)))
        · dsimp only
          rw [hOff, manualCount_mk_offline]
          omega
      · rcases honl hOnl with hc | hc
        · rw [if_pos ⟨hOnl, by rw [hc]; decide⟩,
            if_neg (str_ne_trans hOnl (by decide)), if_pos hOnl]
          refine ⟨_, rfl, ?_, ?_⟩
          · intro f hf
            rw [List.mem_singleton] at hf
            subst hf
            exact make_fix_ok _ _ _ _ _ _ _ h0 h1
              (fun hm => absurd hm (str_ne_trans hOnl (by decide)))
          · dsimp only
            rw [hOnl, manualCount_mk_online, hc, round2_zero, if_pos (by decide)]
        · have hnlt : ¬ (standardize_value reference (strGet cols row field) field).2.1 <
              accept_threshold := by
            rw [hc]
            decide
          rw [if_neg (fun h => hnlt h.2), if_neg (str_ne_trans hOnl (by decide)), if_pos hOnl]
          refine ⟨_, rfl, ?_, ?_⟩
          · intro f hf
            rw [List.mem_singleton] at hf
            subst hf
            exact make_fix_ok _ _ _ _ _ _ _ h0 h1
              (fun hm => absurd hm (str_ne_trans hOnl (by decide)))
          · dsimp only
            rw [hOnl, manualCount_mk_online, hc, round2_pct82, if_neg (by decide)]
            omega
    · split
      · exact ⟨[], by simp, by simp, by simp [manualCount_nil]⟩
      · exact ⟨[], by simp, by simp, by simp [manualCount_nil]⟩
  · exact ⟨[], by simp, by simp, by simp [manualCount_nil]⟩

/-- The email block only appends well-formed fixes and counts manual
review consistently. -/
lemma proc_email_ok (doms : List String) (cols : List String) (row : Row) (idx : Nat) :
    StepOK (proc_email doms cols row idx) := by
  intro st
  simp only [proc_email]
  split
  · generalize (if "email" ∈ cols then "email" else "people_email") = ef
    split
    · rename_i email_val heq
      obtain ⟨h0, h1, hmode, hmanc⟩ := validate_email_facts doms cols row email_val
      split
      · rename_i hg
        split
        · rename_i info hinfo
          refine ⟨_, rfl, ?_, ?_⟩
          · intro f hf
            rw [List.mem_singleton] at hf
            subst hf
            exact make_fix_ok _ _ _ _ _ _ _ (by decide) (by decide)
              (fun hm => absurd hm (by decide))
          · dsimp only
            rw [manualCount_mk_offline]
            omega
        · rename_i hninfo
          refine ⟨_, rfl, ?_, ?_⟩
          · intro f hf
            rw [List.mem_singleton] at hf
            subst hf
            exact make_fix_ok _ _ _ _ _ _ _ (by decide) (by decide)
              (fun hm => absurd hm (by decide))
          · dsimp only
            rw [manualCount_mk_online, round2_zero, if_pos (by decide)]
      · rename_i hg
        split
        · rename_i hcl
          have hOff : (validate_email doms cols row email_val).2.2.1 = "OFFLINE" := by
            rcases hmode with h | h
            · exact h
            · exact absurd ⟨hmanc h, h⟩ hg
          rw [if_neg (fun h => absurd h.1 (str_ne_trans hOff (by decide))), if_pos hOff]
          refine ⟨_, rfl, ?_, ?_⟩
          · intro f hf
            rw [List.mem_singleton] at hf
            subst hf
            exact make_fix_ok _ _ _ _ _ _ _ h0 h1 hmanc
          · dsimp only
            rw [hOff, manualCount_mk_offline]
            omega
        · exact ⟨[], by simp, by simp, by simp [manualCount_nil]⟩
    · exact ⟨[], by simp, by simp, by simp [manualCount_nil]⟩
    · exact ⟨[], by simp, by simp, by simp [manualCount_nil]⟩
  · exact ⟨[], by simp, by simp, by simp [manualCount_nil]⟩



/-- The job-title block invariant. -/
lemma proc_job_ok (jmap : List (String × String)) (cols : List String) (row : Row)
    (idx : Nat) : StepOK (proc_job jmap cols row idx) := by
  intro st
  simp only [proc_job]
  split
  · generalize (if "job_title" ∈ cols then "job_title" else "jobtitle") = jf
    split
    · rename_i job_val heq
      obtain ⟨h0, h1⟩ := validate_job_title_conf_facts jmap job_val
      split
      · refine ⟨_, rfl, ?_, ?_⟩
        · intro f hf
          rw [List.mem_singleton] at hf
          subst hf
          exact make_fix_ok _ _ _ _ _ _ _ (by decide) (by decide) (fun _ => rfl)
        · dsimp only
          rw [manualCount_mk_manual]
      · split
        · refine ⟨_, rfl, ?_, ?_⟩
          · intro f hf
            rw [List.mem_singleton] at hf
            subst hf
            exact make_fix_ok _ _ _ _ _ _ _ h0 h1 (fun hm => absurd hm (by decide))
          · dsimp only
            rw [manualCount_mk_offline]
            omega
        · exact ⟨[], by simp, by simp, by simp [manualCount_nil]⟩
    · exact ⟨[], by simp, by simp, by simp [manualCount_nil]⟩
  · exact ⟨[], by simp, by simp, by simp [manualCount_nil]⟩

/-- The phone block invariant. -/
lemma proc_phone_ok (cols : List String) (row : Row) (idx : Nat) :
    StepOK (proc_phone cols row idx) := by
  intro st
  simp only [proc_phone]
  split
  · generalize (if "phone" ∈ cols then "phone" else "people_phone") = pf
    split
    · rename_i phone_val heq
      obtain ⟨h0, h1⟩ := validate_phone_conf_facts phone_val
      split
      · refine ⟨_, rfl, ?_, ?_⟩
        · intro f hf
          rw [List.mem_singleton] at hf
          subst hf
          exact make_fix_ok _ _ _ _ _ _ _ (by decide) (by decide) (fun _ => rfl)
        · dsimp only
          rw [manualCount_mk_manual]
      · split
        · refine ⟨_, rfl, ?_, ?_⟩
          · intro f hf
            rw [List.mem_singleton] at hf
            subst hf
            exact make_fix_ok _ _ _ _ _ _ _ h0 h1 (fun hm => absurd hm (by decide))
          · dsimp only
            rw [manualCount_mk_offline]
            omega
        · exact ⟨[], by simp, by simp, by simp [manualCount_nil]⟩
    · exact ⟨[], by simp, by simp, by simp [manualCount_nil]⟩
    · exact ⟨[], by simp, by simp, by simp [manualCount_nil]⟩
  · exact ⟨[], by simp, by simp, by simp [manualCount_nil]⟩

/-- The name block invariant. -/
lemma proc_name_field_ok (field : String) (cols : List String) (row : Row) (idx : Nat) :
    StepOK (proc_name_field field cols row idx) := by
  intro st
  simp only [proc_name_field]
  split
  · split
    · rename_i name_val heq
      split
      · split
        · refine ⟨_, rfl, ?_, ?_⟩
          · intro f hf
            rw [List.mem_singleton] at hf
            subst hf
            exact make_fix_ok _ _ _ _ _ _ _ (by decide) (by decide)
              (fun hm => absurd hm (by decide))
          · dsimp only
            rw [manualCount_mk_offline]
            omega
        · refine ⟨_, rfl, ?_, ?_⟩
          · intro f hf
            rw [List.mem_singleton] at hf
            subst hf
            exact make_fix_ok _ _ _ _ _ _ _ (by decide) (by decide) (fun _ => rfl)
          · dsimp only
            rw [manualCount_mk_manual]
      · exact ⟨[], by simp, by simp, by simp [manualCount_nil]⟩
    · exact ⟨[], by simp, by simp, by simp [manualCount_nil]⟩
  · exact ⟨[], by simp, by simp, by simp [manualCount_nil]⟩

/-- The id block invariant. -/
lemma proc_id_ok (cols : List String) (row : Row) (idx : Nat) :
    StepOK (proc_id cols row idx) := by
  intro st
  simp only [proc_id]
  split
  · split
    · rename_i id_val heq
      split
      · split
        · refine ⟨_, rfl, ?_, ?_⟩
          · intro f hf
            rw [List.mem_singleton] at hf
            subst hf
            exact make_fix_ok _ _ _ _ _ _ _ (by decide) (by decide)
              (fun hm => absurd hm (by decide))
          · dsimp only
            rw [manualCount_mk_offline]
            omega
        · refine ⟨_, rfl, ?_, ?_⟩
          · intro f hf
            rw [List.mem_singleton] at hf
            subst hf
            exact make_fix_ok _ _ _ _ _ _ _ (by decide) (by decide) (fun _ => rfl)
          · dsimp only
            rw [manualCount_mk_manual]
      · exact ⟨[], by simp, by simp, by simp [manualCount_nil]⟩
    · exact ⟨[], by simp, by simp, by simp [manualCount_nil]⟩
  · exact ⟨[], by simp, by simp, by simp [manualCount_nil]⟩

/-- The score block invariant. -/
lemma proc_score_field_ok (field : String) (cols : List String) (row : Row) (idx : Nat) :
    StepOK (proc_score_field field cols row idx) := by
  intro st
  simp only [proc_score_field]
  split
  · split
    · rename_i score_val heq
      split
      · refine ⟨_, rfl, ?_, ?_⟩
        · intro f hf
          rw [List.mem_singleton] at hf
          subst hf
          exact make_fix_ok _ _ _ _ _ _ _ (by decide) (by decide) (fun _ => rfl)
        · dsimp only
          rw [manualCount_mk_manual]
      · exact ⟨[], by simp, by simp, by simp [manualCount_nil]⟩
    · exact ⟨[], by simp, by simp, by simp [manualCount_nil]⟩
  · exact ⟨[], by simp, by simp, by simp [manualCount_nil]⟩

/-- One full row step preserves the invariant. -/
lemma process_row_ok (ref : RefData) (cols : List String) (row : Row) (idx : Nat) :
    StepOK (process_row ref cols row idx) := by
  have h1 := proc_categorical_ok ref.countries "country" cols row idx
  have h2 := proc_categorical_ok ref.industries "industry" cols row idx
  have h3 := proc_job_ok ref.job_title_map cols row idx
  have h4 := proc_email_ok ref.email_domains cols row idx
  have h5 := proc_phone_ok cols row idx
  have h6 := proc_name_field_ok "first_name" cols row idx
  have h7 := proc_name_field_ok "last_name" cols row idx
  have h8 := proc_name_field_ok "middle_name" cols row idx
  have h9 := proc_name_field_ok "person_name" cols row idx
  have h10 := proc_id_ok cols row idx
  have h11 := proc_score_field_ok "email_score" cols row idx
  have h12 := proc_score_field_ok "people_email_score" cols row idx
  exact ((((((((((h1.comp h2).comp h3).comp h4).comp h5).comp h6).comp h7).comp
    h8).comp h9).comp h10).comp h11).comp h12

/-- The fold over all rows preserves the invariant. -/
lemma foldRows_ok (ref : RefData) (cols : List String) (l : List (Nat × Row)) :
    StepOK (fun st => l.foldl (fun st ir => process_row ref cols ir.2 ir.1 st) st) := by
  induction l with
  | nil => exact stepOK_id
  | cons a tl ih => exact (process_row_ok ref cols a.2 a.1).comp ih



/-- The whole counter fold starts empty, so its fixes are exactly the
appended events and its manual count matches. -/
lemma counters_ok (ref : RefData) (cols : List String) (l : List (Nat × Row)) :
    (∀ f ∈ (l.foldl (fun st ir => process_row ref cols ir.2 ir.1 st) Counters.init).fixes,
        FixOK f) ∧
      (l.foldl (fun st ir => process_row ref cols ir.2 ir.1 st) Counters.init).manual_review =
        manualCount
          (l.foldl (fun st ir => process_row ref cols ir.2 ir.1 st) Counters.init).fixes := by
  obtain ⟨new, hfix, hok, hmr⟩ := foldRows_ok ref cols l Counters.init
  have hnew : (l.foldl (fun st ir => process_row ref cols ir.2 ir.1 st)
      Counters.init).fixes = new := by
    rw [hfix]
    rfl
  constructor
  · intro f hf
    rw [hnew] at hf
    exact hok f hf
  · rw [hnew, hmr]
    exact Nat.zero_add _

/-- C6: every fix event emitted by `_process_dataframe` has confidence in
`[0, 1]`; a MANUAL fix always has confidence `0`; and the report counter
`manual_review` equals exactly one increment per MANUAL fix plus one per
ONLINE fix whose confidence is below the accept threshold `0.8` — so each
MANUAL-mode issue increments it exactly once. -/
theorem c6_fix_invariants (ref : RefData) (data_type : String) (t0 : Table) :
    (∀ f ∈ (process_dataframe ref data_type t0).fixes,
        0 ≤ f.confidence ∧ f.confidence ≤ 1 ∧
          (f.processing_mode = "MANUAL" → f.confidence = 0)) ∧
      (process_dataframe ref data_type t0).report.manual_review =
        (process_dataframe ref data_type t0).fixes.countP
            (fun f => f.processing_mode == "MANUAL") +
          (process_dataframe ref data_type t0).fixes.countP
            (fun f => f.processing_mode == "ONLINE" &&
              decide (f.confidence < accept_threshold)) :=
  ⟨(counters_ok ref _ _).1, (counters_ok ref _ _).2⟩

/-- Witness for C6: the single fix emitted for a one-row table with a null
country cell satisfies the invariant, instantiated concretely. -/
theorem c6_witness :
    (0 ≤ (make_fix 0 "country" none "nan" 0 "OFFLINE" "missing").confidence ∧
        (make_fix 0 "country" none "nan" 0 "OFFLINE" "missing").confidence ≤ 1 ∧
          ((make_fix 0 "country" none "nan" 0 "OFFLINE" "missing").processing_mode = "MANUAL" →
            (make_fix 0 "country" none "nan" 0 "OFFLINE" "missing").confidence = 0)) ∧
      (process_dataframe ⟨[], [], [], []⟩ "people"
          ⟨["country"], [[none]]⟩).report.manual_review =
        (process_dataframe ⟨[], [], [], []⟩ "people"
            ⟨["country"], [[none]]⟩).fixes.countP
            (fun f => f.processing_mode == "MANUAL") +
          (process_dataframe ⟨[], [], [], []⟩ "people"
              ⟨["country"], [[none]]⟩).fixes.countP
            (fun f => f.processing_mode == "ONLINE" &&
              decide (f.confidence < accept_threshold)) :=
  ⟨(c6_fix_invariants ⟨[], [], [], []⟩ "people" ⟨["country"], [[none]]⟩).1
      (make_fix 0 "country" none "nan" 0 "OFFLINE" "missing") (by decide),
    (c6_fix_invariants ⟨[], [], [], []⟩ "people" ⟨["country"], [[none]]⟩).2⟩


/-- One dedup step: decide on the current state, then update. -/
def dupStep (data_type : String) (cols : List String) (st : DupState) (row : Row) : DupState :=
  dupUpdate data_type st (get_company cols row) (get_person cols row) (get_email cols row)
    (get_phone cols row)
    (dupDecide data_type st (get_company cols row) (get_person cols row) (get_email cols row)
      (get_phone cols row))

/-- The dedup state after a list of rows. -/
def stFold (data_type : String) (cols : List String) (st : DupState) (l : List Row) : DupState :=
  l.foldl (dupStep data_type cols) st

/-- The `i`-th dedup flag is the decision at the state accumulated over the
first `i` rows. -/
lemma detectAux_getD (dt : String) (cols : List String) (l : List Row) :
    ∀ (st : DupState) (i : Nat), i < l.length →
      (detectAux dt cols st l).getD i false =
        dupDecide dt (stFold dt cols st (l.take i)) (get_company cols (l.getD i []))
          (get_person cols (l.getD i [])) (get_email cols (l.getD i []))
          (get_phone cols (l.getD i [])) := by
  induction l with
  | nil =>
    intro st i hi
    simp at hi
  | cons row rest ih =>
    intro st i hi
    cases i with
    | zero => rfl
    | succ i =>
      have hi' : i < rest.length := by simpa using hi
      have h := ih (dupStep dt cols st row) i hi'
      simpa [detectAux, stFold, dupStep, List.getD_cons_succ, List.take_succ_cons] using h

/-- Row lookup commutes with `take` below the cut. -/
lemma row_getD_take (l : List Row) (i j : Nat) (hj : j < i) :
    (l.take i).getD j [] = l.getD j [] := by
  induction l generalizing i j with
  | nil => simp
  | cons a tl ih =>
    cases i with
    | zero => exact absurd hj (Nat.not_lt_zero j)
    | succ i =>
      cases j with
      | zero => simp
      | succ j => simpa using ih i j (Nat.lt_of_succ_lt_succ hj)

/-- Dedup flags of a prefix agree with flags of the full list. -/
lemma flags_getD_take (dt : String) (cols : List String) (l : List Row) (i j : Nat)
    (hj : j < i) (hi : i ≤ l.length) :
    (detectAux dt cols DupState.init (l.take i)).getD j false =
      (detectAux dt cols DupState.init l).getD j false := by
  have hjl : j < l.length := lt_of_lt_of_le hj hi
  have hjt : j < (l.take i).length := by
    simp only [List.length_take]
    omega
  rw [detectAux_getD dt cols (l.take i) DupState.init j hjt,
    detectAux_getD dt cols l DupState.init j hjl, List.take_take,
    Nat.min_eq_left (le_of_lt hj), row_getD_take l i j hj]

/-- Row lookup in an appended list below the split. -/
lemma row_getD_append (l : List Row) (row : Row) (j : Nat) (hj : j < l.length) :
    (l ++ [row]).getD j [] = l.getD j [] := by
  rw [List.getD_eq_getElem?_getD, List.getD_eq_getElem?_getD, List.getElem?_append_left hj]

/-- Row lookup at the appended element. -/
lemma row_getD_last (l : List Row) (row : Row) :
    (l ++ [row]).getD l.length [] = row := by
  rw [List.getD_eq_getElem?_getD, List.getElem?_append_right (le_refl l.length)]
  simp

/-- Dedup flags are stable under appending a row. -/
lemma flags_getD_append (dt : String) (cols : List String) (l : List Row) (row : Row)
    (j : Nat) (hj : j < l.length) :
    (detectAux dt cols DupState.init (l ++ [row])).getD j false =
      (detectAux dt cols DupState.init l).getD j false := by
  have h := flags_getD_take dt cols (l ++ [row]) l.length j hj (by simp)
  rw [List.take_left] at h
  exact h.symm

/-- The last dedup flag of an appended list is the decision at the state
after the prefix. -/
lemma flags_getD_last (dt : String) (cols : List String) (l : List Row) (row : Row) :
    (detectAux dt cols DupState.init (l ++ [row])).getD l.length false =
      dupDecide dt (stFold dt cols DupState.init l) (get_company cols row)
        (get_person cols row) (get_email cols row) (get_phone cols row) := by
  have hlen : l.length < (l ++ [row]).length := by simp
  rw [detectAux_getD dt cols (l ++ [row]) DupState.init l.length hlen, List.take_left,
    row_getD_last]



/-- Membership in the accumulated email-seen set: exactly the non-empty
normalized emails of earlier non-duplicate rows. -/
lemma stFold_email_mem (cols : List String) (l : List Row) (e : String) :
    e ∈ (stFold "people" cols DupState.init l).email_seen ↔
      ∃ j, j < l.length ∧
        (detectAux "people" cols DupState.init l).getD j false = false ∧
        get_email cols (l.getD j []) = e ∧ e ≠ "" := by
  induction l using List.reverseRecOn with
  | nil => simp [stFold, DupState.init]
  | append_singleton l row ih =>
    have hstep : stFold "people" cols DupState.init (l ++ [row]) =
        dupStep "people" cols (stFold "people" cols DupState.init l) row := by
      rw [stFold, List.foldl_append]
      rfl
    by_cases hd : dupDecide "people" (stFold "people" cols DupState.init l)
        (get_company cols row) (get_person cols row) (get_email cols row)
        (get_phone cols row) = true
    · have hs : stFold "people" cols DupState.init (l ++ [row]) =
          stFold "people" cols DupState.init l := by
        rw [hstep]
        unfold dupStep
        rw [hd]
        unfold dupUpdate
        rw [if_pos rfl]
      rw [hs, ih]
      constructor
      · rintro ⟨j, hj, hfl, hem, hne⟩
        refine ⟨j, by simp; omega, ?_, ?_, hne⟩
        · rw [flags_getD_append "people" cols l row j hj]
          exact hfl
        · rw [row_getD_append l row j hj]
          exact hem
      · rintro ⟨j, hj, hfl, hem, hne⟩
        have hj' : j < l.length + 1 := by simpa using hj
        rcases Nat.lt_succ_iff_lt_or_eq.mp hj' with hlt | heg
        · refine ⟨j, hlt, ?_, ?_, hne⟩
          · rw [← flags_getD_append "people" cols l row j hlt]
            exact hfl
          · rw [← row_getD_append l row j hlt]
            exact hem
        · exfalso
          subst heg
          rw [flags_getD_last] at hfl
          exact absurd (hd.symm.trans hfl) (by decide)
    · have hd' : dupDecide "people" (stFold "people" cols DupState.init l)
          (get_company cols row) (get_person cols row) (get_email cols row)
          (get_phone cols row) = false := Bool.eq_false_iff.mpr hd
      have hs : (stFold "people" cols DupState.init (l ++ [row])).email_seen =
          if get_email cols row ≠ "" then
            (stFold "people" cols DupState.init l).email_seen ++ [get_email cols row]
          else (stFold "people" cols DupState.init l).email_seen := by
        rw [hstep]
        unfold dupStep
        rw [hd']
        unfold dupUpdate
        rw [if_neg (by decide : ¬ (false = true))]
      rw [hs]
      by_cases hem : get_email cols row ≠ ""
      · rw [if_pos hem]
        rw [List.mem_append, List.mem_singleton, ih]
        constructor
        · rintro (⟨j, hj, hfl, hej, hne⟩ | he)
          · refine ⟨j, by simp; omega, ?_, ?_, hne⟩
            · rw [flags_getD_append "people" cols l row j hj]
              exact hfl
            · rw [row_getD_append l row j hj]
              exact hej
          · subst he
            refine ⟨l.length, by simp, ?_, ?_, hem⟩
            · rw [flags_getD_last]
              exact hd'
            · rw [row_getD_last]
        · rintro ⟨j, hj, hfl, hej, hne⟩
          have hj' : j < l.length + 1 := by simpa using hj
          rcases Nat.lt_succ_iff_lt_or_eq.mp hj' with hlt | heg
          · refine Or.inl ⟨j, hlt, ?_, ?_, hne⟩
            · rw [← flags_getD_append "people" cols l row j hlt]
              exact hfl
            · rw [← row_getD_append l row j hlt]
              exact hej
          · subst heg
            rw [row_getD_last] at hej
            exact Or.inr hej.symm
      · rw [if_neg hem, ih]
        constructor
        · rintro ⟨j, hj, hfl, hej, hne⟩
          refine ⟨j, by simp; omega, ?_, ?_, hne⟩
          · rw [flags_getD_append "people" cols l row j hj]
            exact hfl
          · rw [row_getD_append l row j hj]
            exact hej
        · rintro ⟨j, hj, hfl, hej, hne⟩
          have hj' : j < l.length + 1 := by simpa using hj
          rcases Nat.lt_succ_iff_lt_or_eq.mp hj' with hlt | heg
          · refine ⟨j, hlt, ?_, ?_, hne⟩
            · rw [← flags_getD_append "people" cols l row j hlt]
              exact hfl
            · rw [← row_getD_append l row j hlt]
              exact hej
          · exfalso
            subst heg
            rw [row_getD_last] at hej
            rw [not_ne_iff] at hem
            exact hne (hej.symm.trans hem)



/-- Membership in the accumulated phone-seen set: exactly the non-empty
digits-only phones of earlier non-duplicate rows. -/
lemma stFold_phone_mem (cols : List String) (l : List Row) (e : String) :
    e ∈ (stFold "people" cols DupState.init l).phone_seen ↔
      ∃ j, j < l.length ∧
        (detectAux "people" cols DupState.init l).getD j false = false ∧
        get_phone cols (l.getD j []) = e ∧ e ≠ "" := by
  induction l using List.reverseRecOn with
  | nil => simp [stFold, DupState.init]
  | append_singleton l row ih =>
    have hstep : stFold "people" cols DupState.init (l ++ [row]) =
        dupStep "people" cols (stFold "people" cols DupState.init l) row := by
      rw [stFold, List.foldl_append]
      rfl
    by_cases hd : dupDecide "people" (stFold "people" cols DupState.init l)
        (get_company cols row) (get_person cols row) (get_email cols row)
        (get_phone cols row) = true
    · have hs : stFold "people" cols DupState.init (l ++ [row]) =
          stFold "people" cols DupState.init l := by
        rw [hstep]
        unfold dupStep
        rw [hd]
        unfold dupUpdate
        rw [if_pos rfl]
      rw [hs, ih]
      constructor
      · rintro ⟨j, hj, hfl, hem, hne⟩
        refine ⟨j, by simp; omega, ?_, ?_, hne⟩
        · rw [flags_getD_append "people" cols l row j hj]
          exact hfl
        · rw [row_getD_append l row j hj]
          exact hem
      · rintro ⟨j, hj, hfl, hem, hne⟩
        have hj' : j < l.length + 1 := by simpa using hj
        rcases Nat.lt_succ_iff_lt_or_eq.mp hj' with hlt | heg
        · refine ⟨j, hlt, ?_, ?_, hne⟩
          · rw [← flags_getD_append "people" cols l row j hlt]
            exact hfl
          · rw [← row_getD_append l row j hlt]
            exact hem
        · exfalso
          subst heg
          rw [flags_getD_last] at hfl
          exact absurd (hd.symm.trans hfl) (by decide)
    · have hd' : dupDecide "people" (stFold "people" cols DupState.init l)
          (get_company cols row) (get_person cols row) (get_email cols row)
          (get_phone cols row) = false := Bool.eq_false_iff.mpr hd
      have hs : (stFold "people" cols DupState.init (l ++ [row])).phone_seen =
          if get_phone cols row ≠ "" then
            (stFold "people" cols DupState.init l).phone_seen ++ [get_phone cols row]
          else (stFold "people" cols DupState.init l).phone_seen := by
        rw [hstep]
        unfold dupStep
        rw [hd']
        unfold dupUpdate
        rw [if_neg (by decide : ¬ (false = true))]
      rw [hs]
      by_cases hem : get_phone cols row ≠ ""
      · rw [if_pos hem]
        rw [List.mem_append, List.mem_singleton, ih]
        constructor
        · rintro (⟨j, hj, hfl, hej, hne⟩ | he)
          · refine ⟨j, by simp; omega, ?_, ?_, hne⟩
            · rw [flags_getD_append "people" cols l row j hj]
              exact hfl
            · rw [row_getD_append l row j hj]
              exact hej
          · subst he
            refine ⟨l.length, by simp, ?_, ?_, hem⟩
            · rw [flags_getD_last]
              exact hd'
            · rw [row_getD_last]
        · rintro ⟨j, hj, hfl, hej, hne⟩
          have hj' : j < l.length + 1 := by simpa using hj
          rcases Nat.lt_succ_iff_lt_or_eq.mp hj' with hlt | heg
          · refine Or.inl ⟨j, hlt, ?_, ?_, hne⟩
            · rw [← flags_getD_append "people" cols l row j hlt]
              exact hfl
            · rw [← row_getD_append l row j hlt]
              exact hej
          · subst heg
            rw [row_getD_last] at hej
            exact Or.inr hej.symm
      · rw [if_neg hem, ih]
        constructor
        · rintro ⟨j, hj, hfl, hej, hne⟩
          refine ⟨j, by simp; omega, ?_, ?_, hne⟩
          · rw [flags_getD_append "people" cols l row j hj]
            exact hfl
          · rw [row_getD_append l row j hj]
            exact hej
        · rintro ⟨j, hj, hfl, hej, hne⟩
          have hj' : j < l.length + 1 := by simpa using hj
          rcases Nat.lt_succ_iff_lt_or_eq.mp hj' with hlt | heg
          · refine ⟨j, hlt, ?_, ?_, hne⟩
            · rw [← flags_getD_append "people" cols l row j hlt]
              exact hfl
            · rw [← row_getD_append l row j hlt]
              exact hej
          · exfalso
            subst heg
            rw [row_getD_last] at hej
            rw [not_ne_iff] at hem
            exact hne (hej.symm.trans hem)

/-- Membership in the accumulated person-company history: exactly the
pairs of earlier non-duplicate rows with both fields non-empty (people
mode records no company-only anchors). -/
lemma stFold_pc_mem (cols : List String) (l : List Row) (pc : String × String) :
    pc ∈ (stFold "people" cols DupState.init l).person_company_seen ↔
      ∃ j, j < l.length ∧
        (detectAux "people" cols DupState.init l).getD j false = false ∧
        get_person cols (l.getD j []) ≠ "" ∧ get_company cols (l.getD j []) ≠ "" ∧
        (get_person cols (l.getD j []), get_company cols (l.getD j [])) = pc := by
  induction l using List.reverseRecOn with
  | nil => simp [stFold, DupState.init]
  | append_singleton l row ih =>
    have hstep : stFold "people" cols DupState.init (l ++ [row]) =
        dupStep "people" cols (stFold "people" cols DupState.init l) row := by
      rw [stFold, List.foldl_append]
      rfl
    by_cases hd : dupDecide "people" (stFold "people" cols DupState.init l)
        (get_company cols row) (get_person cols row) (get_email cols row)
        (get_phone cols row) = true
    · have hs : stFold "people" cols DupState.init (l ++ [row]) =
          stFold "people" cols DupState.init l := by
        rw [hstep]
        unfold dupStep
        rw [hd]
        unfold dupUpdate
        rw [if_pos rfl]
      rw [hs, ih]
      constructor
      · rintro ⟨j, hj, hfl, hpj, hcj, hej⟩
        refine ⟨j, by simp; omega, ?_, ?_, ?_, ?_⟩
        · rw [flags_getD_append "people" cols l row j hj]
          exact hfl
        · rw [row_getD_append l row j hj]
          exact hpj
        · rw [row_getD_append l row j hj]
          exact hcj
        · rw [row_getD_append l row j hj]
          exact hej
      · rintro ⟨j, hj, hfl, hpj, hcj, hej⟩
        have hj' : j < l.length + 1 := by simpa using hj
        rcases Nat.lt_succ_iff_lt_or_eq.mp hj' with hlt | heg
        · refine ⟨j, hlt, ?_, ?_, ?_, ?_⟩
          · rw [← flags_getD_append "people" cols l row j hlt]
            exact hfl
          · rw [← row_getD_append l row j hlt]
            exact hpj
          · rw [← row_getD_append l row j hlt]
            exact hcj
          · rw [← row_getD_append l row j hlt]
            exact hej
        · exfalso
          subst heg
          rw [flags_getD_last] at hfl
          exact absurd (hd.symm.trans hfl) (by decide)
    · have hd' : dupDecide "people" (stFold "people" cols DupState.init l)
          (get_company cols row) (get_person cols row) (get_email cols row)
          (get_phone cols row) = false := Bool.eq_false_iff.mpr hd
      have hs : (stFold "people" cols DupState.init (l ++ [row])).person_company_seen =
          if get_person cols row ≠ "" ∧ get_company cols row ≠ "" then
            (stFold "people" cols DupState.init l).person_company_seen ++
              [(get_person cols row, get_company cols row)]
          else (stFold "people" cols DupState.init l).person_company_seen := by
        rw [hstep]
        unfold dupStep
        rw [hd']
        unfold dupUpdate
        rw [if_neg (by decide : ¬ (false = true))]
        dsimp only
        by_cases hpc : get_person cols row ≠ "" ∧ get_company cols row ≠ ""
        · rw [if_pos hpc, if_pos hpc]
        · rw [if_neg hpc, if_neg hpc, if_neg (fun h => absurd h.1 (by decide))]
      rw [hs]
      by_cases hb : get_person cols row ≠ "" ∧ get_company cols row ≠ ""
      · rw [if_pos hb]
        rw [List.mem_append, List.mem_singleton, ih]
        constructor
        · rintro (⟨j, hj, hfl, hpj, hcj, hej⟩ | he)
          · refine ⟨j, by simp; omega, ?_, ?_, ?_, ?_⟩
            · rw [flags_getD_append "people" cols l row j hj]
              exact hfl
            · rw [row_getD_append l row j hj]
              exact hpj
            · rw [row_getD_append l row j hj]
              exact hcj
            · rw [row_getD_append l row j hj]
              exact hej
          · subst he
            refine ⟨l.length, by simp, ?_, ?_, ?_, ?_⟩
            · rw [flags_getD_last]
              exact hd'
            · rw [row_getD_last]
              exact hb.1
            · rw [row_getD_last]
              exact hb.2
            · rw [row_getD_last]
        · rintro ⟨j, hj, hfl, hpj, hcj, hej⟩
          have hj' : j < l.length + 1 := by simpa using hj
          rcases Nat.lt_succ_iff_lt_or_eq.mp hj' with hlt | heg
          · refine Or.inl ⟨j, hlt, ?_, ?_, ?_, ?_⟩
            · rw [← flags_getD_append "people" cols l row j hlt]
              exact hfl
            · rw [← row_getD_append l row j hlt]
              exact hpj
            · rw [← row_getD_append l row j hlt]
              exact hcj
            · rw [← row_getD_append l row j hlt]
              exact hej
          · subst heg
            rw [row_getD_last] at hej
            exact Or.inr hej.symm
      · rw [if_neg hb, ih]
        constructor
        · rintro ⟨j, hj, hfl, hpj, hcj, hej⟩
          refine ⟨j, by simp; omega, ?_, ?_, ?_, ?_⟩
          · rw [flags_getD_append "people" cols l row j hj]
            exact hfl
          · rw [row_getD_append l row j hj]
            exact hpj
          · rw [row_getD_append l row j hj]
            exact hcj
          · rw [row_getD_append l row j hj]
            exact hej
        · rintro ⟨j, hj, hfl, hpj, hcj, hej⟩
          have hj' : j < l.length + 1 := by simpa using hj
          rcases Nat.lt_succ_iff_lt_or_eq.mp hj' with hlt | heg
          · refine ⟨j, hlt, ?_, ?_, ?_, ?_⟩
            · rw [← flags_getD_append "people" cols l row j hlt]
              exact hfl
            · rw [← row_getD_append l row j hlt]
              exact hpj
            · rw [← row_getD_append l row j hlt]
              exact hcj
            · rw [← row_getD_append l row j hlt]
              exact hej
          · exfalso
            subst heg
            rw [row_getD_last] at hpj hcj
            exact hb ⟨hpj, hcj⟩



/-- The people-mode duplicate decision as a proposition. -/
lemma dupDecide_people_iff (st : DupState) (c p e ph : String) :
    dupDecide "people" st c p e ph = true ↔
      (e ≠ "" ∧ e ∈ st.email_seen) ∨ (ph ≠ "" ∧ ph ∈ st.phone_seen) ∨
        (p ≠ "" ∧ c ≠ "" ∧ ∃ pc, pc ∈ st.person_company_seen ∧
          tokenSortScore c pc.2 ≥ 90 ∧ tokenSortScore p pc.1 ≥ 90) := by
  simp only [dupDecide]
  rw [if_neg (by decide : ¬ (("people" : String) = "company"))]
  split_ifs with h1 h2 h3
  · exact iff_of_true rfl (Or.inl h1)
  · exact iff_of_true rfl (Or.inr (Or.inl h2))
  · rw [List.any_eq_true]
    constructor
    · rintro ⟨pc, hpc, hcond⟩
      rw [decide_eq_true_eq] at hcond
      exact Or.inr (Or.inr ⟨h3.1, h3.2, pc, hpc, hcond.1, hcond.2⟩)
    · rintro (ha | hb | ⟨_, _, pc, hpc, hs1, hs2⟩)
      · exact absurd ha h1
      · exact absurd hb h2
      · exact ⟨pc, hpc, by rw [decide_eq_true_eq]; exact ⟨hs1, hs2⟩⟩
  · refine iff_of_false (by decide) ?_
    rintro (ha | hb | ⟨hp, hc, _⟩)
    · exact h1 ha
    · exact h2 hb
    · exact h3 ⟨hp, hc⟩

/-- Email-seen membership, phrased against the full list via a prefix. -/
lemma stFold_email_mem_take (cols : List String) (l : List Row) (i : Nat)
    (hi : i ≤ l.length) (e : String) :
    e ∈ (stFold "people" cols DupState.init (l.take i)).email_seen ↔
      ∃ j, j < i ∧ (detectAux "people" cols DupState.init l).getD j false = false ∧
        get_email cols (l.getD j []) = e ∧ e ≠ "" := by
  rw [stFold_email_mem]
  constructor
  · rintro ⟨j, hj, hfl, hem, hne⟩
    have hji : j < i := by
      simp only [List.length_take] at hj
      omega
    refine ⟨j, hji, ?_, ?_, hne⟩
    · rw [← flags_getD_take "people" cols l i j hji hi]
      exact hfl
    · rw [← row_getD_take l i j hji]
      exact hem
  · rintro ⟨j, hj, hfl, hem, hne⟩
    refine ⟨j, ?_, ?_, ?_, hne⟩
    · simp only [List.length_take]
      omega
    · rw [flags_getD_take "people" cols l i j hj hi]
      exact hfl
    · rw [row_getD_take l i j hj]
      exact hem

/-- Phone-seen membership via a prefix. -/
lemma stFold_phone_mem_take (cols : List String) (l : List Row) (i : Nat)
    (hi : i ≤ l.length) (e : String) :
    e ∈ (stFold "people" cols DupState.init (l.take i)).phone_seen ↔
      ∃ j, j < i ∧ (detectAux "people" cols DupState.init l).getD j false = false ∧
        get_phone cols (l.getD j []) = e ∧ e ≠ "" := by
  rw [stFold_phone_mem]
  constructor
  · rintro ⟨j, hj, hfl, hem, hne⟩
    have hji : j < i := by
      simp only [List.length_take] at hj
      omega
    refine ⟨j, hji, ?_, ?_, hne⟩
    · rw [← flags_getD_take "people" cols l i j hji hi]
      exact hfl
    · rw [← row_getD_take l i j hji]
      exact hem
  · rintro ⟨j, hj, hfl, hem, hne⟩
    refine ⟨j, ?_, ?_, ?_, hne⟩
    · simp only [List.length_take]
      omega
    · rw [flags_getD_take "people" cols l i j hj hi]
      exact hfl
    · rw [row_getD_take l i j hj]
      exact hem

/-- Person-company history membership via a prefix. -/
lemma stFold_pc_mem_take (cols : List String) (l : List Row) (i : Nat)
    (hi : i ≤ l.length) (pc : String × String) :
    pc ∈ (stFold "people" cols DupState.init (l.take i)).person_company_seen ↔
      ∃ j, j < i ∧ (detectAux "people" cols DupState.init l).getD j false = false ∧
        get_person cols (l.getD j []) ≠ "" ∧ get_company cols (l.getD j []) ≠ "" ∧
        (get_person cols (l.getD j []), get_company cols (l.getD j [])) = pc := by
  rw [stFold_pc_mem]
  constructor
  · rintro ⟨j, hj, hfl, hpj, hcj, hej⟩
    have hji : j < i := by
      simp only [List.length_take] at hj
      omega
    refine ⟨j, hji, ?_, ?_, ?_, ?_⟩
    · rw [← flags_getD_take "people" cols l i j hji hi]
      exact hfl
    · rw [← row_getD_take l i j hji]
      exact hpj
    · rw [← row_getD_take l i j hji]
      exact hcj
    · rw [← row_getD_take l i j hji]
      exact hej
  · rintro ⟨j, hj, hfl, hpj, hcj, hej⟩
    refine ⟨j, ?_, ?_, ?_, ?_, ?_⟩
    · simp only [List.length_take]
      omega
    · rw [flags_getD_take "people" cols l i j hj hi]
      exact hfl
    · rw [row_getD_take l i j hj]
      exact hpj
    · rw [row_getD_take l i j hj]
      exact hcj
    · rw [row_getD_take l i j hj]
      exact hej

/-- C4: in people mode a record is flagged duplicate exactly when its
normalized (lower/trimmed) email equals the email of an earlier
non-duplicate record, or its digits-only phone equals the phone of an
earlier non-duplicate record, or its person and company are both
non-empty and some earlier non-duplicate record with both fields
non-empty scores at least 90 token-sort similarity on both company and
person; a company-only match never flags a record in this mode. -/
theorem c4_person_dedup_iff (t : Table) (i : Nat) (hi : i < t.rows.length) :
    (detect_duplicates "people" t).1.getD i false = true ↔
      ((get_email t.cols (t.rows.getD i []) ≠ "" ∧
          ∃ j, j < i ∧ (detect_duplicates "people" t).1.getD j false = false ∧
            get_email t.cols (t.rows.getD j []) = get_email t.cols (t.rows.getD i [])) ∨
        (get_phone t.cols (t.rows.getD i []) ≠ "" ∧
          ∃ j, j < i ∧ (detect_duplicates "people" t).1.getD j false = false ∧
            get_phone t.cols (t.rows.getD j []) = get_phone t.cols (t.rows.getD i [])) ∨
        (get_person t.cols (t.rows.getD i []) ≠ "" ∧
          get_company t.cols (t.rows.getD i []) ≠ "" ∧
          ∃ j, j < i ∧ (detect_duplicates "people" t).1.getD j false = false ∧
            get_person t.cols (t.rows.getD j []) ≠ "" ∧
            get_company t.cols (t.rows.getD j []) ≠ "" ∧
            tokenSortScore (get_company t.cols (t.rows.getD i []))
              (get_company t.cols (t.rows.getD j [])) ≥ 90 ∧
            tokenSortScore (get_person t.cols (t.rows.getD i []))
              (get_person t.cols (t.rows.getD j [])) ≥ 90)) := by
  have hflags : (detect_duplicates "people" t).1 =
      detectAux "people" t.cols DupState.init t.rows := rfl
  rw [hflags, detectAux_getD "people" t.cols t.rows DupState.init i hi,
    dupDecide_people_iff]
  rw [stFold_email_mem_take t.cols t.rows i (le_of_lt hi),
    stFold_phone_mem_take t.cols t.rows i (le_of_lt hi)]
  simp only [stFold_pc_mem_take t.cols t.rows i (le_of_lt hi)]
  constructor
  · rintro (⟨hne, j, hj, hfl, hem, _⟩ | ⟨hne, j, hj, hfl, hem, _⟩ |
      ⟨hp, hc, pc, ⟨j, hj, hfl, hpj, hcj, hpcj⟩, hs1, hs2⟩)
    · exact Or.inl ⟨hne, j, hj, hfl, hem⟩
    · exact Or.inr (Or.inl ⟨hne, j, hj, hfl, hem⟩)
    · subst hpcj
      exact Or.inr (Or.inr ⟨hp, hc, j, hj, hfl, hpj, hcj, hs1, hs2⟩)
  · rintro (⟨hne, j, hj, hfl, hem⟩ | ⟨hne, j, hj, hfl, hem⟩ |
      ⟨hp, hc, j, hj, hfl, hpj, hcj, hs1, hs2⟩)
    · exact Or.inl ⟨hne, j, hj, hfl, hem, hne⟩
    · exact Or.inr (Or.inl ⟨hne, j, hj, hfl, hem, hne⟩)
    · exact Or.inr (Or.inr ⟨hp, hc,
        (get_person t.cols (t.rows.getD j []), get_company t.cols (t.rows.getD j [])),
        ⟨j, hj, hfl, hpj, hcj, rfl⟩, hs1, hs2⟩)



/-- Witness for C4: of two rows whose emails normalize to "a@x.com", the
second is flagged duplicate, via the email disjunct at a concrete
table. -/
theorem c4_witness :
    (detect_duplicates "people"
        ⟨["email"], [[some "A@x.com"], [some "a@x.com "]]⟩).1.getD 1 false = true :=
  (c4_person_dedup_iff ⟨["email"], [[some "A@x.com"], [some "a@x.com "]]⟩ 1
      (by decide)).mpr
    (Or.inl ⟨by decide, 0, by decide, by decide, by decide⟩)

end DQ
